import Mathlib

/-!
Verification of the document ingestion and chunking subsystem of the
multi-document-rag repository.  Text is modelled as `List Char` (Python
strings are sequences of code points, and `len` counts code points).
Each definition carries a comment naming the Python source it embeds.
All definitions are executable structural recursions so that concrete
instances can be settled by `decide`.
-/

/-- Python strings are modelled as lists of characters. -/
abbrev Str := List Char

/-- Coercion from Lean string literals to the `Str` model. -/
def str (s : String) : Str := s.data

namespace MDRag

/-- The character class matched by Python's `\s` (and stripped by
`str.strip()`) restricted to the code points the corpus can contain:
space, TAB, LF, VT, FF, CR, FS, GS, RS, US, NEL and NBSP.
(Python also treats some higher Unicode spaces as whitespace; they are
not needed by any claim.) -/
def pyIsSpace (c : Char) : Bool :=
  c = ' ' || c = '\t' || c = '\n' || c.toNat = 11 || c.toNat = 12 ||
  c = '\r' || c.toNat = 28 || c.toNat = 29 || c.toNat = 30 || c.toNat = 31 ||
  c.toNat = 133 || c.toNat = 160

/-- The removal class of `DocumentChunker._clean_text`
(src/chunking.py line 70): `[\x00-\x08\x0b-\x0c\x0e-\x1f\x7f-\x9f]`. -/
def isCtrl (c : Char) : Bool :=
  (c.toNat ≤ 8) || (11 ≤ c.toNat && c.toNat ≤ 12) ||
  (14 ≤ c.toNat && c.toNat ≤ 31) || (127 ≤ c.toNat && c.toNat ≤ 159)

/-- `re.sub(r'\s+', ' ', text)`: every maximal run of whitespace becomes a
single space.  The Boolean flag records whether the previous character was
part of a whitespace run. -/
def collapseGo (prevSpace : Bool) : Str → Str
  | [] => []
  | c :: cs =>
    if pyIsSpace c then
      if prevSpace then collapseGo true cs else ' ' :: collapseGo true cs
    else c :: collapseGo false cs

/-- `re.sub(r'\s+', ' ', text)` (src/chunking.py line 68). -/
def collapseWS (s : Str) : Str := collapseGo false s

/-- `re.sub(r'[\x00-\x08\x0b-\x0c\x0e-\x1f\x7f-\x9f]', '', text)`
(src/chunking.py line 70). -/
def removeCtrl (s : Str) : Str := s.filter (fun c => !isCtrl c)

/-- Python `str.strip()`: drop whitespace from both ends. -/
def pyStrip (s : Str) : Str :=
  ((s.dropWhile pyIsSpace).reverse.dropWhile pyIsSpace).reverse

/-- `DocumentChunker._clean_text` (src/chunking.py lines 65-73):
collapse whitespace, remove control characters, strip. -/
def clean_text (s : Str) : Str := pyStrip (removeCtrl (collapseWS s))

/-! ### The text splitter

`DocumentChunker` delegates splitting to langchain's
`RecursiveCharacterTextSplitter` with `length_function=len`,
`keep_separator=True` and literal (regex-escaped) separators.  The
library's `_split_text`, `_split_text_with_regex` and `_merge_splits`
are embedded below.  Outer recursion is over an explicit fuel argument;
each recursive call uses a strictly shorter separator list, so fuel
`separators.length + 1` is always sufficient. -/

/-- Does `sep` occur (as a contiguous subsequence) in `text`?  Models
`re.search(re.escape(sep), text)` for a literal separator. -/
def occursIn (sep : Str) : Str → Bool
  | [] => sep.isEmpty
  | c :: cs => sep.isPrefixOf (c :: cs) || occursIn sep cs

/-- Split point search: text before the first occurrence of `sep`, and the
remainder after that occurrence (`none` if `sep` does not occur). -/
def splitOnSepGo (sep : Str) : Str → (Str × Option Str)
  | [] => ([], none)
  | c :: cs =>
    if sep.isPrefixOf (c :: cs) then ([], some ((c :: cs).drop sep.length))
    else
      let r := splitOnSepGo sep cs
      (c :: r.1, r.2)

/-- `re.split(sep, text)` for a literal non-empty separator, fuelled by the
text length (each step removes at least one character when `sep ≠ []`). -/
def splitPartsF (sep : Str) : Nat → Str → List Str
  | 0, t => [t]
  | fuel + 1, t =>
    match splitOnSepGo sep t with
    | (pre, none) => [pre]
    | (pre, some rest) => pre :: splitPartsF sep fuel rest

/-- `re.split(sep, text)` for a literal separator. -/
def splitParts (sep : Str) (t : Str) : List Str := splitPartsF sep (t.length + 1) t

/-- langchain `_split_text_with_regex` with `keep_separator=True`
("start" behaviour): the separator is glued onto the front of the piece
that follows it, and empty pieces are removed.  For `sep = ""` the text
is split into single characters (`list(text)`). -/
def splitWithSep (sep : Str) (text : Str) : List Str :=
  if sep.isEmpty then text.map (fun c => [c])
  else
    match splitParts sep text with
    | [] => []
    | p :: ps => (p :: ps.map (fun q => sep ++ q)).filter (fun q => !q.isEmpty)

/-- Separator selection loop of `RecursiveCharacterTextSplitter._split_text`:
take the first separator that is empty (hard cut) or occurs in the text;
the remaining separators become the recursion list.  If none matches, the
last separator is used with an empty recursion list. -/
def chooseSep : List Str → Str → (Str × List Str)
  | [], _ => ([], [])
  | [s], _ => if s.isEmpty then ([], []) else (s, [])
  | s :: s2 :: rest, t =>
    if s.isEmpty then ([], [])
    else if occursIn s t then (s, s2 :: rest) else chooseSep (s2 :: rest) t

/-- The pop loop of `TextSplitter._merge_splits` (separator `""`, so the
separator length terms vanish): while the running total exceeds the
overlap, or the total plus the incoming length still exceeds the chunk
size, drop the oldest member of the current document.  The `[]` case is
unreachable under the invariant `total = sum of lengths` (Python would
raise `IndexError` there). -/
def popLoop (chunkSize overlap dlen : Nat) : List Str → Nat → (List Str × Nat)
  | [], total => ([], total)
  | c :: rest, total =>
    if overlap < total || (chunkSize < total + dlen && 0 < total) then
      popLoop chunkSize overlap dlen rest (total - c.length)
    else (c :: rest, total)

/-- `TextSplitter._join_docs` with separator `""`: concatenate, strip, and
drop the result when it is empty. -/
def joinDoc (cur : List Str) : List Str :=
  let t := pyStrip cur.flatten
  if t.isEmpty then [] else [t]

/-- Main loop of `TextSplitter._merge_splits` with separator `""`.
State: emitted docs, current accumulating window, running total
(= sum of lengths of the window). -/
def mergeGo (chunkSize overlap : Nat) :
    List Str → List Str → List Str → Nat → List Str
  | [], docs, cur, _ => docs ++ joinDoc cur
  | d :: ds, docs, cur, total =>
    if chunkSize < total + d.length then
      if cur.isEmpty then mergeGo chunkSize overlap ds docs [d] d.length
      else
        let docs1 := docs ++ joinDoc cur
        let p := popLoop chunkSize overlap d.length cur total
        mergeGo chunkSize overlap ds docs1 (p.1 ++ [d]) (p.2 + d.length)
    else mergeGo chunkSize overlap ds docs (cur ++ [d]) (total + d.length)

/-- `TextSplitter._merge_splits` with separator `""`. -/
def mergeSplits (chunkSize overlap : Nat) (splits : List Str) : List Str :=
  mergeGo chunkSize overlap splits [] [] 0

/-- The good/bad split loop of `RecursiveCharacterTextSplitter._split_text`:
splits shorter than the chunk size are buffered and merged; longer ones
flush the buffer and are recursed into (or appended whole when no
separators remain). -/
def goSplits (chunkSize overlap : Nat) (recur : Str → List Str) (noMore : Bool) :
    List Str → List Str → List Str → List Str
  | [], docs, good =>
    docs ++ (if good.isEmpty then [] else mergeSplits chunkSize overlap good)
  | d :: ds, docs, good =>
    if d.length < chunkSize then goSplits chunkSize overlap recur noMore ds docs (good ++ [d])
    else
      let docs1 := if good.isEmpty then docs else docs ++ mergeSplits chunkSize overlap good
      let docs2 := if noMore then docs1 ++ [d] else docs1 ++ recur d
      goSplits chunkSize overlap recur noMore ds docs2 []

/-- `RecursiveCharacterTextSplitter._split_text`, fuelled. -/
def recSplit (chunkSize overlap : Nat) : Nat → List Str → Str → List Str
  | 0, _, text => [text]
  | fuel + 1, seps, text =>
    let p := chooseSep seps text
    let splits := splitWithSep p.1 text
    goSplits chunkSize overlap (recSplit chunkSize overlap fuel p.2) p.2.isEmpty splits [] []

/-- `RecursiveCharacterTextSplitter.split_text`. -/
def split_text (chunkSize overlap : Nat) (seps : List Str) (text : Str) : List Str :=
  recSplit chunkSize overlap (seps.length + 1) seps text

/-- Separators of `self.pdf_splitter` (src/chunking.py line 35). -/
def pdfSeps : List Str :=
  [str "\n\n", str "\nFigure", str "\nReferences", str "\n", str ". ", str " ", str ""]

/-- Separators of `self.docx_splitter` (src/chunking.py line 44). -/
def docxSeps : List Str := [str "\n", str ". ", str " "]

/-- Separators of `self.excel_splitter` (src/chunking.py line 53). -/
def excelSeps : List Str := [str "\n", str ", ", str " "]

/-- `Config.PDF_CHUNK_SIZE` (src/config.py line 38). -/
def PDF_CHUNK_SIZE : Nat := 1800

/-- `Config.DOCX_CHUNK_SIZE` (src/config.py line 39). -/
def DOCX_CHUNK_SIZE : Nat := 1500

/-- `Config.EXCEL_CHUNK_SIZE` (src/config.py line 40). -/
def EXCEL_CHUNK_SIZE : Nat := 500

/-- `self.pdf_splitter.split_text` (chunk_size 1800, overlap 200). -/
def pdf_split (text : Str) : List Str := split_text PDF_CHUNK_SIZE 200 pdfSeps text

/-- `self.docx_splitter.split_text` (chunk_size 1500, overlap 200). -/
def docx_split (text : Str) : List Str := split_text DOCX_CHUNK_SIZE 200 docxSeps text

/-- `self.excel_splitter.split_text` (chunk_size 500, overlap 50). -/
def excel_split (text : Str) : List Str := split_text EXCEL_CHUNK_SIZE 50 excelSeps text

/-! ### MD5 and chunk identifiers

`DocumentChunker._generate_chunk_id` computes
`hashlib.md5(text.encode()).hexdigest()[:8]`.  MD5 (RFC 1321) is
implemented below over `Nat` with explicit reduction mod `2^32`. -/

/-- Reduce mod `2^32`. -/
def m32 (n : Nat) : Nat := n % 4294967296

/-- 32-bit left rotation (arguments `x < 2^32`, `0 < s < 32`). -/
def rotl32 (x s : Nat) : Nat := (x % 2 ^ (32 - s)) * 2 ^ s + x / 2 ^ (32 - s)

/-- 32-bit bitwise complement. -/
def bnot32 (x : Nat) : Nat := 4294967295 - x

/-- The MD5 sine-derived constant table `K[0..63]`. -/
def md5K : List Nat :=
  [0xd76aa478, 0xe8c7b756, 0x242070db, 0xc1bdceee,
   0xf57c0faf, 0x4787c62a, 0xa8304613, 0xfd469501,
   0x698098d8, 0x8b44f7af, 0xffff5bb1, 0x895cd7be,
   0x6b901122, 0xfd987193, 0xa679438e, 0x49b40821,
   0xf61e2562, 0xc040b340, 0x265e5a51, 0xe9b6c7aa,
   0xd62f105d, 0x02441453, 0xd8a1e681, 0xe7d3fbc8,
   0x21e1cde6, 0xc33707d6, 0xf4d50d87, 0x455a14ed,
   0xa9e3e905, 0xfcefa3f8, 0x676f02d9, 0x8d2a4c8a,
   0xfffa3942, 0x8771f681, 0x6d9d6122, 0xfde5380c,
   0xa4beea44, 0x4bdecfa9, 0xf6bb4b60, 0xbebfbc70,
   0x289b7ec6, 0xeaa127fa, 0xd4ef3085, 0x04881d05,
   0xd9d4d039, 0xe6db99e5, 0x1fa27cf8, 0xc4ac5665,
   0xf4292244, 0x432aff97, 0xab9423a7, 0xfc93a039,
   0x655b59c3, 0x8f0ccc92, 0xffeff47d, 0x85845dd1,
   0x6fa87e4f, 0xfe2ce6e0, 0xa3014314, 0x4e0811a1,
   0xf7537e82, 0xbd3af235, 0x2ad7d2bb, 0xeb86d391]

/-- The MD5 per-round shift table `s[0..63]`. -/
def md5S : List Nat :=
  [7, 12, 17, 22, 7, 12, 17, 22, 7, 12, 17, 22, 7, 12, 17, 22,
   5, 9, 14, 20, 5, 9, 14, 20, 5, 9, 14, 20, 5, 9, 14, 20,
   4, 11, 16, 23, 4, 11, 16, 23, 4, 11, 16, 23, 4, 11, 16, 23,
   6, 10, 15, 21, 6, 10, 15, 21, 6, 10, 15, 21, 6, 10, 15, 21]

/-- One MD5 round applied to the state `(a, b, c, d)`. -/
def md5Step (M : List Nat) (st : Nat × Nat × Nat × Nat) (i : Nat) :
    Nat × Nat × Nat × Nat :=
  let a := st.1; let b := st.2.1; let c := st.2.2.1; let d := st.2.2.2
  let fg : Nat × Nat :=
    if i < 16 then ((b &&& c) ||| (bnot32 b &&& d), i)
    else if i < 32 then ((d &&& b) ||| (bnot32 d &&& c), (5 * i + 1) % 16)
    else if i < 48 then (b ^^^ c ^^^ d, (3 * i + 5) % 16)
    else (c ^^^ (b ||| bnot32 d), (7 * i) % 16)
  let t := m32 (fg.1 + a + md5K.getD i 0 + M.getD fg.2 0)
  (d, m32 (b + rotl32 t (md5S.getD i 0)), b, c)

/-- Process one 64-byte block (given as 16 little-endian words). -/
def md5Block (st : Nat × Nat × Nat × Nat) (M : List Nat) : Nat × Nat × Nat × Nat :=
  let r := (List.range 64).foldl (md5Step M) st
  (m32 (st.1 + r.1), m32 (st.2.1 + r.2.1), m32 (st.2.2.1 + r.2.2.1),
   m32 (st.2.2.2 + r.2.2.2))

/-- Interpret 64 bytes as 16 little-endian 32-bit words. -/
def leWords (block : List Nat) : List Nat :=
  (List.range 16).map (fun j =>
    block.getD (4 * j) 0 + block.getD (4 * j + 1) 0 * 256 +
    block.getD (4 * j + 2) 0 * 65536 + block.getD (4 * j + 3) 0 * 16777216)

/-- Cut a byte list into 64-byte blocks (fuelled; each step consumes at
least one byte). -/
def blocks64 : Nat → List Nat → List (List Nat)
  | 0, _ => []
  | _ + 1, [] => []
  | fuel + 1, l => l.take 64 :: blocks64 fuel (l.drop 64)

/-- MD5 padding: `0x80`, zeros to 56 mod 64, then the bit length as eight
little-endian bytes. -/
def md5Pad (msg : List Nat) : List Nat :=
  let L := msg.length
  let zeros := (119 - L % 64) % 64
  msg ++ [128] ++ List.replicate zeros 0 ++
    (List.range 8).map (fun i => 8 * L / 2 ^ (8 * i) % 256)

/-- A nibble as a lowercase hex character. -/
def hexDigit (n : Nat) : Char :=
  if n < 10 then Char.ofNat (48 + n) else Char.ofNat (87 + n)

/-- A byte as two lowercase hex characters. -/
def hexByte (n : Nat) : Str := [hexDigit (n / 16), hexDigit (n % 16)]

/-- One state word as four little-endian bytes. -/
def leBytes (w : Nat) : List Nat := [w % 256, w / 256 % 256, w / 65536 % 256, w / 16777216 % 256]

/-- `hashlib.md5(bytes).hexdigest()`. -/
def md5hexBytes (msg : List Nat) : Str :=
  let padded := md5Pad msg
  let st := (blocks64 (padded.length + 1) padded).foldl (fun st b => md5Block st (leWords b))
    (0x67452301, 0xefcdab89, 0x98badcfe, 0x10325476)
  ((leBytes st.1 ++ leBytes st.2.1 ++ leBytes st.2.2.1 ++ leBytes st.2.2.2).map hexByte).flatten

/-- Python `str.encode()`: UTF-8 bytes of one character. -/
def utf8Char (c : Char) : List Nat :=
  let n := c.toNat
  if n < 128 then [n]
  else if n < 2048 then [192 + n / 64, 128 + n % 64]
  else if n < 65536 then [224 + n / 4096, 128 + n / 64 % 64, 128 + n % 64]
  else [240 + n / 262144, 128 + n / 4096 % 64, 128 + n / 64 % 64, 128 + n % 64]

/-- Python `text.encode()`. -/
def utf8Bytes (s : Str) : List Nat := (s.map utf8Char).flatten

/-- `hashlib.md5(text.encode()).hexdigest()` (src/chunking.py line 60). -/
def md5hex (text : Str) : Str := md5hexBytes (utf8Bytes text)

/-- An ASCII word character in the sense of Python's `\w`
(`[a-zA-Z0-9_]`; the sources contain only ASCII names). -/
def isWordChar (c : Char) : Bool := c.isAlphanum || c = '_'

/-- `re.sub(r'[^\w\-]', '_', source.replace('.', '_'))`
(src/chunking.py line 62): dots become underscores, then every character
that is neither a word character nor a hyphen becomes an underscore. -/
def sanitizeSource (source : Str) : Str :=
  (source.map (fun c => if c = '.' then '_' else c)).map
    (fun c => if isWordChar c || c = '-' then c else '_')

/-- Decimal digits of a natural number. -/
def natStr (n : Nat) : Str := Nat.toDigits 10 n

/-- `DocumentChunker._generate_chunk_id` (src/chunking.py lines 57-63):
`{sanitized_source}_{index}_{first 8 hex chars of md5(text)}`. -/
def generate_chunk_id (text source : Str) (index : Nat) : Str :=
  sanitizeSource source ++ ['_'] ++ natStr index ++ ['_'] ++ (md5hex text).take 8

/-! ### Data model

The loaders emit Python dicts; the chunkers read them and attach a
metadata dict to each `ProcessedChunk`.  Both are modelled as structures
whose optional fields mirror the keys each document type sets. -/

/-- The `row` value of a tabular unit: `'summary'`, an Excel row number,
or `f'decade_{decade}'`. -/
inductive RowVal where
  | summary : RowVal
  | num : Int → RowVal
  | decadeTag : Int → RowVal
deriving DecidableEq, Repr

/-- A loader output dict (one raw unit of extracted content). -/
structure RawUnit where
  text : Str
  source : Str
  doc_type : Str
  page : Option Nat := none
  «section» : Option Nat := none
  sheet : Option Str := none
  row : Option RowVal := none
  year : Option Int := none
  decade : Option Int := none
deriving DecidableEq, Repr

/-- The metadata dict attached by `DocumentChunker` to a chunk. -/
structure ChunkMeta where
  source : Str
  doc_name : Str
  doc_type : Str
  page : Option Nat := none
  «section» : Option Nat := none
  sheet : Option Str := none
  row : Option RowVal := none
  chunk_index : Nat
  char_count : Nat
deriving DecidableEq, Repr

/-- `ProcessedChunk` (src/chunking.py lines 8-21). -/
structure ProcessedChunk where
  chunk_id : Str
  text : Str
  metadata : ChunkMeta
deriving DecidableEq, Repr

/-- Emission loop of `DocumentChunker._chunk_pdf` (src/chunking.py lines
90-108): splits whose stripped length is under 50 are skipped; the others
are emitted with the running `chunk_index`, which increments per emitted
chunk. -/
def emitPdf (source docName : Str) (page : Option Nat) :
    List Str → Nat → (List ProcessedChunk × Nat)
  | [], idx => ([], idx)
  | s :: ss, idx =>
    if (pyStrip s).length < 50 then emitPdf source docName page ss idx
    else
      let c : ProcessedChunk :=
        { chunk_id := generate_chunk_id s source idx
          text := s
          metadata := { source := source, doc_name := docName, doc_type := str "pdf",
                        page := page, chunk_index := idx, char_count := s.length } }
      let r := emitPdf source docName page ss (idx + 1)
      (c :: r.1, r.2)

/-- `DocumentChunker._chunk_pdf` (src/chunking.py lines 75-111). -/
def chunkPdfGo (docName : Str) : List RawUnit → Nat → List ProcessedChunk
  | [], _ => []
  | u :: us, idx =>
    let text := clean_text u.text
    let r := emitPdf u.source docName u.page (pdf_split text) idx
    r.1 ++ chunkPdfGo docName us r.2

/-- `DocumentChunker._chunk_pdf`. -/
def chunk_pdf (docChunks : List RawUnit) (docName : Str) : List ProcessedChunk :=
  chunkPdfGo docName docChunks 0

/-- Emission loop of `DocumentChunker._chunk_docx` (src/chunking.py lines
128-146); identical index discipline to the pdf case. -/
def emitDocx (source docName : Str) («section» : Option Nat) :
    List Str → Nat → (List ProcessedChunk × Nat)
  | [], idx => ([], idx)
  | s :: ss, idx =>
    if (pyStrip s).length < 50 then emitDocx source docName «section» ss idx
    else
      let c : ProcessedChunk :=
        { chunk_id := generate_chunk_id s source idx
          text := s
          metadata := { source := source, doc_name := docName, doc_type := str "docx",
                        «section» := «section», chunk_index := idx, char_count := s.length } }
      let r := emitDocx source docName «section» ss (idx + 1)
      (c :: r.1, r.2)

/-- `DocumentChunker._chunk_docx` (src/chunking.py lines 113-149). -/
def chunkDocxGo (docName : Str) : List RawUnit → Nat → List ProcessedChunk
  | [], _ => []
  | u :: us, idx =>
    let text := clean_text u.text
    let r := emitDocx u.source docName u.«section» (docx_split text) idx
    r.1 ++ chunkDocxGo docName us r.2

/-- `DocumentChunker._chunk_docx`. -/
def chunk_docx (docChunks : List RawUnit) (docName : Str) : List ProcessedChunk :=
  chunkDocxGo docName docChunks 0

/-- Emission loop of `DocumentChunker._chunk_excel` (src/chunking.py lines
167-189): the threshold is 20, and `chunk_index` is the *enumeration index
of the raw unit*, fixed for every split of that unit. -/
def emitExcel (u : RawUnit) (docName : Str) (idx : Nat) : List Str → List ProcessedChunk
  | [] => []
  | s :: ss =>
    if (pyStrip s).length < 20 then emitExcel u docName idx ss
    else
      { chunk_id := generate_chunk_id s u.source idx
        text := s
        metadata := { source := u.source, doc_name := docName, doc_type := str "excel",
                      sheet := u.sheet, row := u.row, chunk_index := idx,
                      char_count := s.length } } :: emitExcel u docName idx ss

/-- `DocumentChunker._chunk_excel` (src/chunking.py lines 151-192):
`for chunk_index, doc_chunk in enumerate(doc_chunks)`; a unit is split
only when its cleaned text exceeds `Config.EXCEL_CHUNK_SIZE`. -/
def chunkExcelGo (docName : Str) : List RawUnit → Nat → List ProcessedChunk
  | [], _ => []
  | u :: us, idx =>
    let text := clean_text u.text
    let splits := if EXCEL_CHUNK_SIZE < text.length then excel_split text else [text]
    emitExcel u docName idx splits ++ chunkExcelGo docName us (idx + 1)

/-- `DocumentChunker._chunk_excel`. -/
def chunk_excel (docChunks : List RawUnit) (docName : Str) : List ProcessedChunk :=
  chunkExcelGo docName docChunks 0

/-! ### The legal-document (DOCX) loader -/

/-- Python `str.isupper()` over ASCII: at least one letter, and no
lowercase letter. -/
def pyIsUpper (s : Str) : Bool := s.any (fun c => c.isAlpha) && s.all (fun c => !c.isLower)

/-- Python `text.endswith(':')`. -/
def endsWithColon (s : Str) : Bool :=
  match s.getLast? with
  | some c => c = ':'
  | none => false

/-- Header test of `DOCXLoader.load` (src/document_loader.py line 98):
`(text.isupper() or text.endswith(':')) and len(text) < 100`. -/
def isHeader (t : Str) : Bool := (pyIsUpper t || endsWithColon t) && t.length < 100

/-- Python `sep.join(parts)`. -/
def joinWith (sep : Str) : List Str → Str
  | [] => []
  | [x] => x
  | x :: xs => x ++ sep ++ joinWith sep xs

/-- Section flush of `DOCXLoader.load` (src/document_loader.py lines
102-111 and 116-124): join with newline and emit only when the joined
length exceeds 100 characters. -/
def docxFlush (cur : List Str) (secNum : Nat) (fname : Str) : List RawUnit :=
  if 100 < (joinWith (str "\n") cur).length then
    [{ text := joinWith (str "\n") cur, source := fname, doc_type := str "docx",
       «section» := some secNum }]
  else []

/-- Paragraph loop of `DOCXLoader.load` (src/document_loader.py lines
87-124).  State: accumulated section paragraphs and the section counter. -/
def docxGo (fname : Str) : List Str → List Str → Nat → List RawUnit
  | [], cur, secNum => if cur.isEmpty then [] else docxFlush cur secNum fname
  | p :: ps, cur, secNum =>
    let text := pyStrip p
    if text.isEmpty then docxGo fname ps cur secNum
    else if isHeader text && !cur.isEmpty then
      docxFlush cur secNum fname ++ docxGo fname ps [text] (secNum + 1)
    else docxGo fname ps (cur ++ [text]) secNum

/-- `DOCXLoader.load`, parametrised by the paragraph texts extracted from
the document. -/
def docx_load (paras : List Str) (fname : Str) : List RawUnit :=
  docxGo fname paras [] 0

/-! ### The tabular (Excel) loader

A sheet is a grid of cells.  Numeric cells are modelled as integers (the
corpus values the claims exercise are whole numbers; float rendering such
as `str(24.0) = "24.0"` is not modelled and no claim depends on it). -/

/-- A spreadsheet cell: missing (pandas `NaN`), a string, or a number. -/
inductive Cell where
  | blank : Cell
  | strv : Str → Cell
  | num : Int → Cell
deriving DecidableEq, Repr

/-- Python `str(n)` for an integer. -/
def intStr (n : Int) : Str := if n < 0 then '-' :: natStr n.natAbs else natStr n.toNat

/-- Python `str(cell)`: pandas renders a missing value as `"nan"`. -/
def cellStr : Cell → Str
  | .blank => str "nan"
  | .strv s => s
  | .num n => intStr n

/-- `int(float(cell))` wrapped in try/except (src/document_loader.py lines
231-234): numbers convert directly; strings convert when they are plain
decimal numerals (the corpus has no other convertible strings); anything
else raises and the row is skipped. -/
def parseYear : Cell → Option Int
  | .blank => none
  | .num n => some n
  | .strv s =>
    if !s.isEmpty && s.all (fun c => c.isDigit) then
      some (Int.ofNat (s.foldl (fun a c => a * 10 + (c.toNat - 48)) 0))
    else none

/-- Search one row for a cell rendering to `"Year"` after stripping,
returning its column index (src/document_loader.py lines 162-167). -/
def findYearInRow : List Cell → Nat → Option Nat
  | [], _ => none
  | c :: cs, j =>
    if pyStrip (cellStr c) = str "Year" then some j else findYearInRow cs (j + 1)

/-- Row-major scan for the first cell exactly equal to `"Year"`
(src/document_loader.py lines 160-169). -/
def findYearCell : List (List Cell) → Nat → Option (Nat × Nat)
  | [], _ => none
  | r :: rs, i =>
    match findYearInRow r 0 with
    | some j => some (i, j)
    | none => findYearCell rs (i + 1)

/-- Pair every element with its index, starting from `n`
(models the pandas row index preserved by `.iloc` slicing). -/
def enumFrom (n : Nat) : List α → List (Nat × α)
  | [] => []
  | x :: xs => (n, x) :: enumFrom (n + 1) xs

/-- Lower-case a string (Python `str.lower()` over ASCII). -/
def lowerStr (s : Str) : Str := s.map Char.toLower

/-- First column index whose name satisfies `p` (models the
`for col in df.columns: ... break` searches). -/
def findColIdx (p : Str → Bool) : List Cell → Nat → Option Nat
  | [], _ => none
  | c :: cs, j => if p (pyStrip (cellStr c)) then some j else findColIdx p cs (j + 1)

/-- Cell of a row at column position `j` (pandas pads missing cells with
`NaN`). -/
def rowCell (row : List Cell) (j : Nat) : Cell := row.getD j .blank

/-- The twelve month abbreviations (src/document_loader.py lines 244-245). -/
def monthNames : List Str :=
  [str "Jan", str "Feb", str "Mar", str "Apr", str "May", str "Jun",
   str "Jul", str "Aug", str "Sep", str "Oct", str "Nov", str "Dec"]

/-- Monthly value collection (src/document_loader.py lines 247-258):
for each month, find the column whose stripped lowered name equals the
lowered month name; keep `"{month}: {value}"` when the cell is present. -/
def monthlyData (row : List Cell) (colNames : List Cell) : List Str :=
  monthNames.filterMap (fun m =>
    match findColIdx (fun nm => lowerStr nm = lowerStr m) colNames 0 with
    | none => none
    | some j =>
      match rowCell row j with
      | .blank => none
      | v => some (m ++ str ": " ++ cellStr v))

/-- Average-column lookup (src/document_loader.py lines 264-269): the
first column whose stripped lowered name contains `"average"` or `"avg"`. -/
def avgColIdx (colNames : List Cell) : Option Nat :=
  findColIdx (fun nm =>
    occursIn (str "average") (lowerStr nm) || occursIn (str "avg") (lowerStr nm)) colNames 0

/-- The average cell of a row, when the column exists and the cell is
present. -/
def avgVal (row : List Cell) (colNames : List Cell) : Option Cell :=
  match avgColIdx colNames with
  | none => none
  | some j =>
    match rowCell row j with
    | .blank => none
    | v => some v

/-- Per-year description text (src/document_loader.py lines 241-277). -/
def yearDesc (year : Int) (row : List Cell) (colNames : List Cell) : Str :=
  let monthly := monthlyData row colNames
  str "Inflation data for year " ++ intStr year ++ str ":\n" ++
  (if monthly.isEmpty then []
   else str "Monthly CPI values: " ++ joinWith (str ", ") monthly ++ str "\n") ++
  (match avgVal row colNames with
   | some v => str "Average annual CPI for " ++ intStr year ++ str ": " ++ cellStr v ++ str "\n"
   | none => []) ++
  str "Year " ++ intStr year ++
    str " inflation data can be used to calculate inflation-adjusted values.\n" ++
  str "To adjust a value from " ++ intStr year ++
    str " to another year, use the CPI ratio between those years."

/-- Sheet summary text (src/document_loader.py lines 206-211). -/
def summaryText (sheetName startY endY : Str) : Str :=
  str "Sheet: " ++ sheetName ++ str "\n" ++
  str "This is an inflation calculator with historical CPI data from " ++
    startY ++ str " to " ++ endY ++ str ".\n" ++
  str "Available data columns: Year, Jan, Feb, Mar, Apr, May, Jun, Jul, Aug, Sep, Oct, Nov, Dec, Average\n" ++
  str "This data can be used to calculate inflation-adjusted values between any two years.\n"

/-- Insert into a year-sorted pair list (Python `sorted` on
`(year, avg)` tuples; corpus years are distinct, so comparing the year
suffices). -/
def insertPair (p : Int × Cell) : List (Int × Cell) → List (Int × Cell)
  | [] => [p]
  | q :: qs => if p.1 ≤ q.1 then p :: q :: qs else q :: insertPair p qs

/-- Insertion sort by year ascending (src/document_loader.py line 325). -/
def sortPairs : List (Int × Cell) → List (Int × Cell)
  | [] => []
  | p :: ps => insertPair p (sortPairs ps)

/-- Minimum year of a nonempty pair list. -/
def minYear : List (Int × Cell) → Int
  | [] => 0
  | p :: ps => ps.foldl (fun m q => min m q.1) p.1

/-- Maximum year of a nonempty pair list. -/
def maxYear : List (Int × Cell) → Int
  | [] => 0
  | p :: ps => ps.foldl (fun m q => max m q.1) p.1

/-- Ensure a decade key exists (Python `if decade not in decades:
decades[decade] = []`, dict insertion order preserved). -/
def ensureKey (d : Int) : List (Int × List (Int × Cell)) → List (Int × List (Int × Cell))
  | [] => [(d, [])]
  | (k, v) :: rest => if k = d then (k, v) :: rest else (k, v) :: ensureKey d rest

/-- Append a `(year, avg)` pair to a decade's list. -/
def appendPair (d : Int) (p : Int × Cell) :
    List (Int × List (Int × Cell)) → List (Int × List (Int × Cell))
  | [] => []
  | (k, v) :: rest =>
    if k = d then (k, v ++ [p]) :: rest else (k, v) :: appendPair d p rest

/-- Decade aggregation pass (src/document_loader.py lines 289-316). -/
def decadesOf (dataRows : List (Nat × List Cell)) (colNames : List Cell) :
    List (Int × List (Int × Cell)) :=
  dataRows.foldl (fun decades r =>
    match parseYear (rowCell r.2 0) with
    | none => decades
    | some y =>
      if y < 1900 || 2100 < y then decades
      else
        let d := y / 10 * 10
        let decades1 := ensureKey d decades
        match avgVal r.2 colNames with
        | some v => appendPair d (y, v) decades1
        | none => decades1) []

/-- Decade summary text (src/document_loader.py lines 321-326). -/
def decadeDesc (d : Int) (pairs : List (Int × Cell)) : Str :=
  str "Inflation data summary for the " ++ intStr d ++ str "s:\n" ++
  str "Years covered: " ++ intStr (minYear pairs) ++ str " to " ++ intStr (maxYear pairs) ++
    str "\n" ++
  str "Year-by-year average CPI:\n" ++
  ((sortPairs pairs).map (fun p => str "  " ++ intStr p.1 ++ str ": " ++ cellStr p.2 ++ str "\n")).flatten

/-- `ExcelLoader.load` for one sheet (src/document_loader.py lines
155-335).  `df[year_column]` selects the first column whose label equals
`df.columns[0]`, i.e. position 0. -/
def excel_sheet (sheetName : Str) (grid : List (List Cell)) (fname : Str) : List RawUnit :=
  let hd := findYearCell grid 0
  let colNames : List Cell :=
    match hd with
    | some (hr, hc) => ((grid.drop hr).headD []).drop hc
    | none => grid.headD []
  let dataRows : List (Nat × List Cell) :=
    match hd with
    | some (hr, hc) => enumFrom (hr + 1) ((grid.drop (hr + 1)).map (fun r => r.drop hc))
    | none => enumFrom 0 (grid.drop 1)
  let years : List Cell := dataRows.filterMap (fun r =>
    match rowCell r.2 0 with
    | .blank => none
    | v => some v)
  let startY : Str := match years.head? with | some v => cellStr v | none => str "unknown"
  let endY : Str := match years.getLast? with | some v => cellStr v | none => str "unknown"
  let summaryUnit : RawUnit :=
    { text := summaryText sheetName startY endY, source := fname, doc_type := str "excel",
      sheet := some sheetName, row := some .summary }
  let yearUnits : List RawUnit := dataRows.filterMap (fun r =>
    match parseYear (rowCell r.2 0) with
    | none => none
    | some y =>
      if y < 1900 || 2100 < y then none
      else some { text := yearDesc y r.2 colNames, source := fname, doc_type := str "excel",
                  sheet := some sheetName, row := some (.num (Int.ofNat r.1 + 2)),
                  year := some y })
  let decadeUnits : List RawUnit := (decadesOf dataRows colNames).filterMap (fun p =>
    if p.2.isEmpty then none
    else some { text := decadeDesc p.1 p.2, source := fname, doc_type := str "excel",
                sheet := some sheetName, row := some (.decadeTag p.1), decade := some p.1 })
  summaryUnit :: yearUnits ++ decadeUnits

/-- `ExcelLoader.load` over all sheets of the workbook. -/
def excel_load (sheets : List (Str × List (List Cell))) (fname : Str) : List RawUnit :=
  (sheets.map (fun p => excel_sheet p.1 p.2 fname)).flatten

/-! ### Configuration and the orchestrator -/

/-- The environment facts `Config.validate` inspects: the two API keys,
existence of the data directory, and existence of each expected document. -/
structure ConfigState where
  github_token : Str
  pinecone_api_key : Str
  data_dir : Str
  data_dir_exists : Bool
  documents : List (Str × Bool)
deriving DecidableEq, Repr

/-- The error list accumulated by `Config.validate`
(src/config.py lines 60-77), in source order. -/
def validateErrors (cfg : ConfigState) : List Str :=
  (if cfg.github_token.isEmpty then [str "GITHUB_TOKEN not set in .env"] else []) ++
  (if cfg.pinecone_api_key.isEmpty then [str "PINECONE_API_KEY not set in .env"] else []) ++
  (if cfg.data_dir_exists then [] else [str "Data directory not found: " ++ cfg.data_dir]) ++
  (let missing := (cfg.documents.filter (fun d => !d.2)).map Prod.fst
   if missing.isEmpty then []
   else [str "Missing documents: " ++ joinWith (str ", ") missing])

/-- `Config.validate` (src/config.py lines 57-80): raise one aggregated
`ValueError` listing every problem, or return normally. -/
def validate (cfg : ConfigState) : Except Str Unit :=
  let errs := validateErrors cfg
  if errs.isEmpty then .ok ()
  else .error (str "Configuration errors:\n" ++ joinWith (str "\n") (errs.map (fun e => ' ' :: e)))

/-- The registered loader suffixes (src/document_loader.py lines 350-354). -/
def loaderExts : List Str := [str ".pdf", str ".docx", str ".xlsx"]

/-- The document loop of `DocumentLoader.load_all_documents`
(src/document_loader.py lines 373-389): each document carries its name,
path suffix, and the outcome of its loader call (`Except.error` models a
raised exception).  Unknown suffixes are skipped without an entry; a
loader failure records the document with an empty list. -/
def loadLoop : List (Str × Str × Except Str (List RawUnit)) → List (Str × List RawUnit)
  | [] => []
  | (name, suffix, res) :: rest =>
    if loaderExts.contains (lowerStr suffix) then
      match res with
      | .ok cs => (name, cs) :: loadLoop rest
      | .error _ => (name, []) :: loadLoop rest
    else loadLoop rest

/-- `DocumentLoader.load_all_documents` (src/document_loader.py lines
356-395): `Config.validate()` runs first; a validation error propagates
and no document is processed. -/
def load_all_documents (cfg : ConfigState)
    (docs : List (Str × Str × Except Str (List RawUnit))) :
    Except Str (List (Str × List RawUnit)) :=
  match validate cfg with
  | .error e => .error e
  | .ok _ => .ok (loadLoop docs)

/-! ### Spec-side definitions (for refinement comparison only) -/

/-- Modelled from the spec: "a sanitized source name (non-word characters
replaced with underscore)" — every non-word character becomes an
underscore, with no exception for hyphens. -/
def specSanitize (source : Str) : Str :=
  source.map (fun c => if isWordChar c then c else '_')

/-- Modelled from the spec: the identifier format
`{sanitized_source}_{index}_{hash}` with the spec's sanitization rule and
the first 8 hex characters of the MD5 digest of the chunk text. -/
def spec_chunk_id (text source : Str) (index : Nat) : Str :=
  specSanitize source ++ ['_'] ++ natStr index ++ ['_'] ++ (md5hex text).take 8

/-! ### Concrete instances used by the scenario and counterexample theorems -/

/-- Two tabular raw units: the first one's cleaned text is shorter than the
20-character floor and is dropped, the second is emitted. -/
def c1docs : List RawUnit :=
  [{ text := str "tiny", source := str "Inflation Calculator.xlsx",
     doc_type := str "excel", sheet := some (str "CPI"), row := some .summary },
   { text := str "This row has more than twenty characters of content.",
     source := str "Inflation Calculator.xlsx", doc_type := str "excel",
     sheet := some (str "CPI"), row := some (.num 6) }]

/-- A legal-document raw unit of 1501 identical letters: no separator of
the docx splitter occurs in it. -/
def c3docxUnit : RawUnit :=
  { text := List.replicate 1501 'a', source := str "EU AI Act Doc.docx",
    doc_type := str "docx", «section» := some 0 }

/-- The paragraph list of the legal-document scenario. -/
def c4paras : List Str :=
  [str "TITLE:", str "Body text one.", str "SECTION TWO:",
   str "Body text two that is long enough to pass the hundred character minimum threshold for section retention here."]

/-- The single section unit the scenario is expected to produce. -/
def c4expected : RawUnit :=
  { text := str "SECTION TWO:\nBody text two that is long enough to pass the hundred character minimum threshold for section retention here.",
    source := str "EU AI Act Doc.docx", doc_type := str "docx", «section» := some 1 }

/-- The header row of the tabular scenario sheet: `"Year"` at column 1,
the twelve months, and an `"Average"` column. -/
def c5hdrRow : List Cell :=
  Cell.blank :: Cell.strv (str "Year") :: monthNames.map Cell.strv ++
    [Cell.strv (str "Average")]

/-- Data row for year `1950 + k`: twelve monthly values and an average. -/
def c5yrRow (k : Nat) : List Cell :=
  Cell.blank :: Cell.num (1950 + Int.ofNat k) ::
    (List.range 12).map (fun m => Cell.num (100 + Int.ofNat k * 12 + Int.ofNat m)) ++
    [Cell.num (20 + Int.ofNat k)]

/-- The scenario grid: three preamble rows, the header row at row index 3
with the `"Year"` cell at column index 1, ten year rows (1950-1959), one
row with an unparseable year and one with an out-of-range year. -/
def c5grid : List (List Cell) :=
  [List.replicate 15 Cell.blank,
   Cell.strv (str "Inflation Calculator") :: List.replicate 14 Cell.blank,
   List.replicate 15 Cell.blank,
   c5hdrRow] ++ (List.range 10).map c5yrRow ++
  [Cell.blank :: Cell.strv (str "Total") :: List.replicate 13 Cell.blank,
   Cell.blank :: Cell.num 1800 :: List.replicate 13 (Cell.num 5)]

/-- The loader output for the scenario workbook. -/
def c5units : List RawUnit :=
  excel_load [(str "CPI", c5grid)] (str "Inflation Calculator.xlsx")

/-- A whitespace/control-character mix on which cleaning is not
idempotent: removing the NUL joins the two spaces around it. -/
def c9text : Str := ['a', ' ', Char.ofNat 0, ' ', 'b']

/-- Paragraphs producing dropped sections: sections 0 and 2 are too short
to be kept, sections 1 and 3 are kept, so emitted locators are `[1, 3]`. -/
def c10gap : List Str :=
  [str "x", str "H:", List.replicate 110 'y', str "I:", str "short",
   str "J:", List.replicate 120 'z']

/-- Paragraphs whose pre-header prefix is flushed as section 0. -/
def c10pre : List Str :=
  [List.replicate 60 'a', List.replicate 60 'b', str "HEADER:", str "tail"]

/-- The section-0 unit expected from `c10pre`. -/
def c10preExpected : RawUnit :=
  { text := List.replicate 60 'a' ++ '\n' :: List.replicate 60 'b',
    source := str "f.docx", doc_type := str "docx", «section» := some 0 }

/-- A configuration with two problems: an unset GitHub token and two
missing documents. -/
def c8badCfg : ConfigState :=
  { github_token := [], pinecone_api_key := str "pc-key",
    data_dir := str "data", data_dir_exists := true,
    documents := [(str "eu_ai_act", false), (str "attention", true),
                  (str "deepseek", false), (str "inflation", true)] }

/-- A configuration with no problems. -/
def c8goodCfg : ConfigState :=
  { github_token := str "gh-token", pinecone_api_key := str "pc-key",
    data_dir := str "data", data_dir_exists := true,
    documents := [(str "eu_ai_act", true), (str "attention", true),
                  (str "deepseek", true), (str "inflation", true)] }

/-- A document list whose middle document's loader raises. -/
def c7docs : List (Str × Str × Except Str (List RawUnit)) :=
  [(str "eu_ai_act", str ".docx", Except.ok [c4expected]),
   (str "attention", str ".pdf", Except.error (str "EOF marker not found")),
   (str "inflation", str ".xlsx", Except.ok c1docs)]

/-- A legal-document raw unit as `DOCXLoader` produces it. -/
def mkDocxUnit (t src : Str) (sec : Option Nat) : RawUnit :=
  { text := t, source := src, doc_type := str "docx", «section» := sec }

/-- A tabular raw unit as `ExcelLoader` produces it. -/
def mkExcelUnit (t src : Str) (sh : Option Str) (r : Option RowVal) : RawUnit :=
  { text := t, source := src, doc_type := str "excel", sheet := sh, row := r }

/-- The chunk indices of a chunk list. -/
def mapIdx (l : List ProcessedChunk) : List Nat :=
  l.map (fun c => c.metadata.chunk_index)

/-- Total length of a list of strings. -/
def sumLens (l : List Str) : Nat := (l.map List.length).sum

/-- The shape of a whitespace-collapsed string: every whitespace character
is a plain space, and no two adjacent characters are both whitespace. -/
def Collapsed (z : Str) : Prop :=
  (∀ c ∈ z, pyIsSpace c = true → c = ' ') ∧
  List.Chain' (fun a b => ¬(pyIsSpace a = true ∧ pyIsSpace b = true)) z

/-- The identifier format the code actually implements: like the spec's,
but hyphens survive sanitization. -/
def spec_chunk_id_hyphen (text source : Str) (index : Nat) : Str :=
  source.map (fun c => if isWordChar c || c = '-' then c else '_') ++
    ['_'] ++ natStr index ++ ['_'] ++ (md5hex text).take 8

/-- The section locators of a unit list, in emission order. -/
def secList (l : List RawUnit) : List Nat := l.filterMap (fun u => u.«section»)

/-! ## Lemmas -/

theorem pyStrip_length_le (s : Str) : (pyStrip s).length ≤ s.length := by
  unfold pyStrip
  calc ((s.dropWhile pyIsSpace).reverse.dropWhile pyIsSpace).reverse.length
      = ((s.dropWhile pyIsSpace).reverse.dropWhile pyIsSpace).length := by
        simp
    _ ≤ (s.dropWhile pyIsSpace).reverse.length :=
        (List.dropWhile_sublist _).length_le
    _ = (s.dropWhile pyIsSpace).length := by simp
    _ ≤ s.length := (List.dropWhile_sublist _).length_le

theorem emitPdf_snd (source docName : Str) (page : Option Nat) :
    ∀ (ss : List Str) (idx : Nat),
      (emitPdf source docName page ss idx).2 =
        idx + (emitPdf source docName page ss idx).1.length := by
  intro ss
  induction ss with
  | nil => intro idx; simp [emitPdf]
  | cons s ss ih =>
    intro idx
    by_cases h : (pyStrip s).length < 50
    · simpa [emitPdf, h] using ih idx
    · simp only [emitPdf, if_neg h]
      rw [ih (idx + 1)]
      simp [Nat.add_comm, Nat.add_assoc, Nat.add_left_comm]

theorem emitPdf_indices (source docName : Str) (page : Option Nat) :
    ∀ (ss : List Str) (idx : Nat),
      mapIdx (emitPdf source docName page ss idx).1 =
        List.range' idx (emitPdf source docName page ss idx).1.length := by
  intro ss
  induction ss with
  | nil => intro idx; simp [emitPdf, mapIdx]
  | cons s ss ih =>
    intro idx
    by_cases h : (pyStrip s).length < 50
    · simpa [emitPdf, h] using ih idx
    · simp only [emitPdf, if_neg h, mapIdx, List.map_cons, List.length_cons,
        List.range'_succ]
      exact congrArg (idx :: ·) (ih (idx + 1))

theorem chunkPdfGo_indices (docName : Str) :
    ∀ (us : List RawUnit) (idx : Nat),
      mapIdx (chunkPdfGo docName us idx) =
        List.range' idx (chunkPdfGo docName us idx).length := by
  intro us
  induction us with
  | nil => intro idx; simp [chunkPdfGo, mapIdx]
  | cons u us ih =>
    intro idx
    simp only [chunkPdfGo, mapIdx, List.map_append, List.length_append]
    rw [emitPdf_snd u.source docName u.page (pdf_split (clean_text u.text)) idx,
      Nat.add_comm
        ((emitPdf u.source docName u.page (pdf_split (clean_text u.text)) idx).1.length),
      ← List.range'_append_1]
    exact congrArg₂ (· ++ ·) (emitPdf_indices _ _ _ _ _) (ih _)

theorem chunk_pdf_indices (us : List RawUnit) (docName : Str) :
    mapIdx (chunk_pdf us docName) = List.range (chunk_pdf us docName).length := by
  rw [List.range_eq_range']
  exact chunkPdfGo_indices docName us 0

theorem emitDocx_snd (source docName : Str) (sec : Option Nat) :
    ∀ (ss : List Str) (idx : Nat),
      (emitDocx source docName sec ss idx).2 =
        idx + (emitDocx source docName sec ss idx).1.length := by
  intro ss
  induction ss with
  | nil => intro idx; simp [emitDocx]
  | cons s ss ih =>
    intro idx
    by_cases h : (pyStrip s).length < 50
    · simpa [emitDocx, h] using ih idx
    · simp only [emitDocx, if_neg h]
      rw [ih (idx + 1)]
      simp [Nat.add_comm, Nat.add_assoc, Nat.add_left_comm]

theorem emitDocx_indices (source docName : Str) (sec : Option Nat) :
    ∀ (ss : List Str) (idx : Nat),
      mapIdx (emitDocx source docName sec ss idx).1 =
        List.range' idx (emitDocx source docName sec ss idx).1.length := by
  intro ss
  induction ss with
  | nil => intro idx; simp [emitDocx, mapIdx]
  | cons s ss ih =>
    intro idx
    by_cases h : (pyStrip s).length < 50
    · simpa [emitDocx, h] using ih idx
    · simp only [emitDocx, if_neg h, mapIdx, List.map_cons, List.length_cons,
        List.range'_succ]
      exact congrArg (idx :: ·) (ih (idx + 1))

theorem chunkDocxGo_indices (docName : Str) :
    ∀ (us : List RawUnit) (idx : Nat),
      mapIdx (chunkDocxGo docName us idx) =
        List.range' idx (chunkDocxGo docName us idx).length := by
  intro us
  induction us with
  | nil => intro idx; simp [chunkDocxGo, mapIdx]
  | cons u us ih =>
    intro idx
    simp only [chunkDocxGo, mapIdx, List.map_append, List.length_append]
    rw [emitDocx_snd u.source docName u.«section» (docx_split (clean_text u.text)) idx,
      Nat.add_comm
        ((emitDocx u.source docName u.«section» (docx_split (clean_text u.text)) idx).1.length),
      ← List.range'_append_1]
    exact congrArg₂ (· ++ ·) (emitDocx_indices _ _ _ _ _) (ih _)

theorem chunk_docx_indices (us : List RawUnit) (docName : Str) :
    mapIdx (chunk_docx us docName) = List.range (chunk_docx us docName).length := by
  rw [List.range_eq_range']
  exact chunkDocxGo_indices docName us 0

theorem emitExcel_indices (u : RawUnit) (docName : Str) (idx : Nat) :
    ∀ ss : List Str, ∀ i ∈ mapIdx (emitExcel u docName idx ss), i = idx := by
  intro ss
  induction ss with
  | nil => simp [emitExcel, mapIdx]
  | cons s ss ih =>
    by_cases h : (pyStrip s).length < 20
    · simpa [emitExcel, h, mapIdx] using ih
    · intro i hi
      simp only [emitExcel, if_neg h, mapIdx, List.map_cons, List.mem_cons] at hi
      rcases hi with hi | hi
      · exact hi
      · exact ih i hi

theorem chunkExcelGo_indices (docName : Str) :
    ∀ (us : List RawUnit) (idx : Nat),
      ∀ i ∈ mapIdx (chunkExcelGo docName us idx), idx ≤ i ∧ i < idx + us.length := by
  intro us
  induction us with
  | nil => intro idx i hi; simp [chunkExcelGo, mapIdx] at hi
  | cons u us ih =>
    intro idx i hi
    simp only [chunkExcelGo, mapIdx, List.map_append, List.mem_append] at hi
    rcases hi with hi | hi
    · have := emitExcel_indices u docName idx _ i hi
      subst this
      exact ⟨Nat.le_refl _, by simp [Nat.lt_add_of_pos_right, Nat.succ_le_succ]⟩
    · have h2 := ih (idx + 1) i hi
      exact ⟨Nat.le_of_succ_le h2.1, by
        simpa [List.length_cons, Nat.add_comm, Nat.add_assoc, Nat.add_left_comm] using h2.2⟩

theorem chain_le_of_all_eq (k : Nat) :
    ∀ l : List Nat, (∀ i ∈ l, i = k) → List.Chain' (· ≤ ·) l := by
  intro l
  induction l with
  | nil => intro _; simp
  | cons x xs ih =>
    intro hall
    refine List.chain'_cons'.mpr ⟨?_, ih (fun i hi => hall i (List.mem_cons_of_mem _ hi))⟩
    intro y hy
    rw [hall x (List.mem_cons_self x xs),
      hall y (List.mem_cons_of_mem _ (List.mem_of_mem_head? hy))]

theorem chunkExcelGo_sorted (docName : Str) :
    ∀ (us : List RawUnit) (idx : Nat),
      List.Chain' (· ≤ ·) (mapIdx (chunkExcelGo docName us idx)) := by
  intro us
  induction us with
  | nil => intro idx; simp [chunkExcelGo, mapIdx]
  | cons u us ih =>
    intro idx
    simp only [chunkExcelGo, mapIdx, List.map_append]
    apply List.Chain'.append
    · exact chain_le_of_all_eq idx _ (emitExcel_indices u docName idx _)
    · exact ih (idx + 1)
    · intro x hx y hy
      have hx' := emitExcel_indices u docName idx _ x (List.mem_of_mem_getLast? hx)
      have hy' := (chunkExcelGo_indices docName us (idx + 1) y (List.mem_of_mem_head? hy)).1
      omega

theorem emitPdf_floor (source docName : Str) (page : Option Nat) :
    ∀ (ss : List Str) (idx : Nat),
      ∀ c ∈ (emitPdf source docName page ss idx).1, 50 ≤ c.metadata.char_count := by
  intro ss
  induction ss with
  | nil => intro idx c hc; simp [emitPdf] at hc
  | cons s ss ih =>
    intro idx c hc
    by_cases h : (pyStrip s).length < 50
    · exact ih idx c (by simpa [emitPdf, h] using hc)
    · simp only [emitPdf, if_neg h, List.mem_cons] at hc
      rcases hc with hc | hc
      · subst hc
        exact Nat.le_trans (Nat.le_of_not_lt h) (pyStrip_length_le s)
      · exact ih (idx + 1) c hc

theorem chunk_pdf_floor (us : List RawUnit) (docName : Str) :
    ∀ c ∈ chunk_pdf us docName, 50 ≤ c.metadata.char_count := by
  unfold chunk_pdf
  generalize 0 = idx
  induction us generalizing idx with
  | nil => intro c hc; simp [chunkPdfGo] at hc
  | cons u us ih =>
    intro c hc
    simp only [chunkPdfGo, List.mem_append] at hc
    rcases hc with hc | hc
    · exact emitPdf_floor _ _ _ _ _ c hc
    · exact ih _ c hc

theorem emitDocx_floor (source docName : Str) (sec : Option Nat) :
    ∀ (ss : List Str) (idx : Nat),
      ∀ c ∈ (emitDocx source docName sec ss idx).1, 50 ≤ c.metadata.char_count := by
  intro ss
  induction ss with
  | nil => intro idx c hc; simp [emitDocx] at hc
  | cons s ss ih =>
    intro idx c hc
    by_cases h : (pyStrip s).length < 50
    · exact ih idx c (by simpa [emitDocx, h] using hc)
    · simp only [emitDocx, if_neg h, List.mem_cons] at hc
      rcases hc with hc | hc
      · subst hc
        exact Nat.le_trans (Nat.le_of_not_lt h) (pyStrip_length_le s)
      · exact ih (idx + 1) c hc

theorem chunk_docx_floor (us : List RawUnit) (docName : Str) :
    ∀ c ∈ chunk_docx us docName, 50 ≤ c.metadata.char_count := by
  unfold chunk_docx
  generalize 0 = idx
  induction us generalizing idx with
  | nil => intro c hc; simp [chunkDocxGo] at hc
  | cons u us ih =>
    intro c hc
    simp only [chunkDocxGo, List.mem_append] at hc
    rcases hc with hc | hc
    · exact emitDocx_floor _ _ _ _ _ c hc
    · exact ih _ c hc

theorem emitExcel_floor (u : RawUnit) (docName : Str) (idx : Nat) :
    ∀ ss : List Str, ∀ c ∈ emitExcel u docName idx ss, 20 ≤ c.metadata.char_count := by
  intro ss
  induction ss with
  | nil => intro c hc; simp [emitExcel] at hc
  | cons s ss ih =>
    intro c hc
    by_cases h : (pyStrip s).length < 20
    · exact ih c (by simpa [emitExcel, h] using hc)
    · simp only [emitExcel, if_neg h, List.mem_cons] at hc
      rcases hc with hc | hc
      · subst hc
        exact Nat.le_trans (Nat.le_of_not_lt h) (pyStrip_length_le s)
      · exact ih c hc

theorem sumLens_nil : sumLens [] = 0 := rfl

theorem sumLens_append (a b : List Str) : sumLens (a ++ b) = sumLens a + sumLens b := by
  simp [sumLens]

theorem sumLens_cons (d : Str) (l : List Str) :
    sumLens (d :: l) = d.length + sumLens l := by
  simp [sumLens]

theorem length_flatten (l : List Str) : l.flatten.length = sumLens l := by
  induction l with
  | nil => rfl
  | cons d l ih => simp [sumLens_cons, ih]

theorem popLoop_spec (cs ov dlen : Nat) :
    ∀ (cur : List Str) (total : Nat), total = sumLens cur →
      (popLoop cs ov dlen cur total).2 = sumLens (popLoop cs ov dlen cur total).1 ∧
      ((popLoop cs ov dlen cur total).2 + dlen ≤ cs ∨ (popLoop cs ov dlen cur total).2 = 0) := by
  intro cur
  induction cur with
  | nil =>
    intro total htot
    simp only [sumLens_nil] at htot
    subst htot
    simp [popLoop, sumLens_nil]
  | cons c rest ih =>
    intro total htot
    rw [sumLens_cons] at htot
    simp only [popLoop]
    split
    · exact ih (total - c.length) (by omega)
    · next h =>
      simp only [Bool.or_eq_true, Bool.and_eq_true, decide_eq_true_eq, not_or, not_and] at h
      refine ⟨by simpa [sumLens_cons] using htot, ?_⟩
      omega

theorem joinDoc_bound (cur : List Str) :
    ∀ x ∈ joinDoc cur, x.length ≤ sumLens cur := by
  intro x hx
  simp only [joinDoc] at hx
  split at hx
  · simp at hx
  · simp only [List.mem_singleton] at hx
    subst hx
    calc (pyStrip cur.flatten).length ≤ cur.flatten.length := pyStrip_length_le _
      _ = sumLens cur := length_flatten cur

theorem mergeGo_bound (cs ov : Nat) :
    ∀ (splits docs cur : List Str) (total : Nat),
      (∀ d ∈ splits, d.length ≤ cs) → total = sumLens cur → total ≤ cs →
      (∀ x ∈ docs, x.length ≤ cs) →
      ∀ x ∈ mergeGo cs ov splits docs cur total, x.length ≤ cs := by
  intro splits
  induction splits with
  | nil =>
    intro docs cur total _ htot hle hdocs x hx
    simp only [mergeGo, List.mem_append] at hx
    rcases hx with hx | hx
    · exact hdocs x hx
    · exact Nat.le_trans (joinDoc_bound cur x hx) (htot ▸ hle)
  | cons d ds ih =>
    intro docs cur total hsp htot hle hdocs x hx
    have hd : d.length ≤ cs := hsp d (List.mem_cons_self d ds)
    have hds : ∀ e ∈ ds, e.length ≤ cs := fun e he => hsp e (List.mem_cons_of_mem _ he)
    simp only [mergeGo] at hx
    split at hx
    · split at hx
      · next hcur =>
        exact ih docs [d] d.length hds (by simp [sumLens_cons, sumLens_nil]) hd hdocs x hx
      · have hpop := popLoop_spec cs ov d.length cur total htot
        refine ih _ _ _ hds ?_ ?_ ?_ x hx
        · rw [sumLens_append, ← hpop.1]
          simp [sumLens_cons, sumLens_nil]
        · rcases hpop.2 with h | h
          · omega
          · omega
        · intro y hy
          rcases List.mem_append.mp hy with hy | hy
          · exact hdocs y hy
          · exact Nat.le_trans (joinDoc_bound cur y hy) (htot ▸ hle)
    · next hbig =>
      exact ih docs (cur ++ [d]) (total + d.length)
        hds (by rw [sumLens_append, htot]; simp [sumLens_cons, sumLens_nil])
        (Nat.le_of_not_lt hbig) hdocs x hx

theorem mergeSplits_bound (cs ov : Nat) (splits : List Str)
    (h : ∀ d ∈ splits, d.length ≤ cs) :
    ∀ x ∈ mergeSplits cs ov splits, x.length ≤ cs := by
  intro x hx
  exact mergeGo_bound cs ov splits [] [] 0 h rfl (Nat.zero_le cs) (by simp) x hx

theorem chooseSep_spec (t : Str) :
    ∀ seps : List Str, [] ∈ seps →
      chooseSep seps t = ([], []) ∨
      ([] ∈ (chooseSep seps t).2 ∧ (chooseSep seps t).2.length < seps.length) := by
  intro seps
  induction seps with
  | nil => intro h; simp at h
  | cons s rest ih =>
    intro hmem
    cases rest with
    | nil =>
      left
      have : s = [] := by simpa using hmem
      subst this
      simp [chooseSep]
    | cons s2 rest2 =>
      by_cases hs : s.isEmpty
      · left
        simp [chooseSep, hs]
      · have hmem2 : [] ∈ s2 :: rest2 := by
          rcases List.mem_cons.mp hmem with h | h
          · exact absurd h.symm (by simpa [List.isEmpty_iff] using hs)
          · exact h
        by_cases hocc : occursIn s t
        · right
          simp only [chooseSep, hs, hocc, if_true, Bool.false_eq_true, if_false]
          exact ⟨hmem2, by simp⟩
        · have hch : chooseSep (s :: s2 :: rest2) t = chooseSep (s2 :: rest2) t := by
            simp [chooseSep, hs, hocc]
          rcases ih hmem2 with h | h
          · left; rw [hch]; exact h
          · right
            rw [hch]
            exact ⟨h.1, Nat.lt_trans h.2 (by simp)⟩

theorem goSplits_bound (cs ov : Nat) (recur : Str → List Str) (noMore : Bool) :
    ∀ (splits docs good : List Str),
      (∀ d ∈ splits, d.length < cs ∨ noMore = false) →
      (∀ d ∈ splits, cs ≤ d.length → ∀ x ∈ recur d, x.length ≤ cs) →
      (∀ g ∈ good, g.length ≤ cs) →
      (∀ x ∈ docs, x.length ≤ cs) →
      ∀ x ∈ goSplits cs ov recur noMore splits docs good, x.length ≤ cs := by
  intro splits
  induction splits with
  | nil =>
    intro docs good _ _ hgood hdocs x hx
    simp only [goSplits, List.mem_append] at hx
    rcases hx with hx | hx
    · exact hdocs x hx
    · split at hx
      · simp at hx
      · exact mergeSplits_bound cs ov good hgood x hx
  | cons d ds ih =>
    intro docs good hshort hrec hgood hdocs x hx
    have hshort' : ∀ e ∈ ds, e.length < cs ∨ noMore = false :=
      fun e he => hshort e (List.mem_cons_of_mem _ he)
    have hrec' : ∀ e ∈ ds, cs ≤ e.length → ∀ x ∈ recur e, x.length ≤ cs :=
      fun e he => hrec e (List.mem_cons_of_mem _ he)
    simp only [goSplits] at hx
    split at hx
    · next hlt =>
      refine ih docs (good ++ [d]) hshort' hrec' ?_ hdocs x hx
      intro g hg
      rcases List.mem_append.mp hg with hg | hg
      · exact hgood g hg
      · simp only [List.mem_singleton] at hg
        subst hg
        exact Nat.le_of_lt hlt
    · next hge =>
      have hdlen : cs ≤ d.length := Nat.le_of_not_lt hge
      have hflush : ∀ y ∈ (if good.isEmpty then docs else docs ++ mergeSplits cs ov good),
          y.length ≤ cs := by
        intro y hy
        split at hy
        · exact hdocs y hy
        · rcases List.mem_append.mp hy with hy | hy
          · exact hdocs y hy
          · exact mergeSplits_bound cs ov good hgood y hy
      refine ih _ [] hshort' hrec' (by simp) ?_ x hx
      intro y hy
      split at hy
      · next hnm =>
        rcases List.mem_append.mp hy with hy | hy
        · exact hflush y hy
        · simp only [List.mem_singleton] at hy
          rcases hshort d (List.mem_cons_self d ds) with h | h
          · rw [hy]; omega
          · rw [h] at hnm; exact absurd hnm (by simp)
      · rcases List.mem_append.mp hy with hy | hy
        · exact hflush y hy
        · exact hrec d (List.mem_cons_self d ds) hdlen y hy

theorem recSplit_bound (cs ov : Nat) (hcs : 2 ≤ cs) :
    ∀ (fuel : Nat) (seps : List Str) (text : Str),
      [] ∈ seps → seps.length ≤ fuel →
      ∀ x ∈ recSplit cs ov fuel seps text, x.length ≤ cs := by
  intro fuel
  induction fuel with
  | zero =>
    intro seps text hmem hlen
    have : seps = [] := List.eq_nil_of_length_eq_zero (Nat.le_zero.mp hlen)
    subst this
    simp at hmem
  | succ fuel ih =>
    intro seps text hmem hlen x hx
    simp only [recSplit] at hx
    rcases chooseSep_spec text seps hmem with hch | hch
    · rw [hch] at hx
      refine goSplits_bound cs ov _ _ _ [] [] ?_ ?_ (by simp) (by simp) x hx
      · intro d hd
        left
        have : d.length = 1 := by
          simp only [splitWithSep, List.isEmpty_nil, if_true] at hd
          rcases List.mem_map.mp hd with ⟨c, _, rfl⟩
          rfl
        omega
      · intro d hd hdlen
        have : d.length = 1 := by
          simp only [splitWithSep, List.isEmpty_nil, if_true] at hd
          rcases List.mem_map.mp hd with ⟨c, _, rfl⟩
          rfl
        omega
    · have hne : (chooseSep seps text).2 ≠ [] := by
        intro h
        rw [h] at hch
        simp at hch
      refine goSplits_bound cs ov _ _ _ [] [] ?_ ?_ (by simp) (by simp) x hx
      · intro d _
        right
        simpa [List.isEmpty_iff] using hne
      · intro d _ _ y hy
        exact ih (chooseSep seps text).2 d hch.1 (by omega) y hy

theorem split_text_bound (cs ov : Nat) (hcs : 2 ≤ cs) (seps : List Str)
    (hmem : [] ∈ seps) (text : Str) :
    ∀ x ∈ split_text cs ov seps text, x.length ≤ cs :=
  recSplit_bound cs ov hcs (seps.length + 1) seps text hmem (Nat.le_succ _)

theorem pdf_split_bound (text : Str) :
    ∀ x ∈ pdf_split text, x.length ≤ PDF_CHUNK_SIZE :=
  split_text_bound PDF_CHUNK_SIZE 200 (by decide) pdfSeps (by decide) text

theorem emitPdf_le (source docName : Str) (page : Option Nat) :
    ∀ (ss : List Str) (idx : Nat), (∀ s ∈ ss, s.length ≤ PDF_CHUNK_SIZE) →
      ∀ c ∈ (emitPdf source docName page ss idx).1,
        c.metadata.char_count ≤ PDF_CHUNK_SIZE := by
  intro ss
  induction ss with
  | nil => intro idx _ c hc; simp [emitPdf] at hc
  | cons s ss ih =>
    intro idx hss c hc
    have hs := hss s (List.mem_cons_self s ss)
    have hss' := fun e he => hss e (List.mem_cons_of_mem s he)
    by_cases h : (pyStrip s).length < 50
    · exact ih idx hss' c (by simpa [emitPdf, h] using hc)
    · simp only [emitPdf, if_neg h, List.mem_cons] at hc
      rcases hc with hc | hc
      · rw [hc]; exact hs
      · exact ih (idx + 1) hss' c hc

theorem chunk_pdf_le (us : List RawUnit) (docName : Str) :
    ∀ c ∈ chunk_pdf us docName, c.metadata.char_count ≤ PDF_CHUNK_SIZE := by
  unfold chunk_pdf
  generalize 0 = idx
  induction us generalizing idx with
  | nil => intro c hc; simp [chunkPdfGo] at hc
  | cons u us ih =>
    intro c hc
    simp only [chunkPdfGo, List.mem_append] at hc
    rcases hc with hc | hc
    · exact emitPdf_le _ _ _ _ _ (pdf_split_bound (clean_text u.text)) c hc
    · exact ih _ c hc

/-! Behaviour of the splitter on a text containing none of the configured
separators. -/

theorem splitOnSepGo_none (sep : Str) :
    ∀ t : Str, occursIn sep t = false → splitOnSepGo sep t = (t, none) := by
  intro t
  induction t with
  | nil => intro _; rfl
  | cons c cs ih =>
    intro h
    simp only [occursIn, Bool.or_eq_false_iff] at h
    simp [splitOnSepGo, h.1, ih h.2]

theorem splitWithSep_none (sep t : Str) (hsep : sep.isEmpty = false)
    (h : occursIn sep t = false) (ht : t ≠ []) : splitWithSep sep t = [t] := by
  have hp : splitParts sep t = [t] := by
    unfold splitParts
    cases hl : t.length + 1 with
    | zero => omega
    | succ n => simp [splitPartsF, splitOnSepGo_none sep t h]
  simp [splitWithSep, hsep, hp, List.isEmpty_iff, ht]

theorem chooseSep_docx (t : Str) (h1 : occursIn (str "\n") t = false)
    (h2 : occursIn (str ". ") t = false) (h3 : occursIn (str " ") t = false) :
    chooseSep docxSeps t = (str " ", []) := by
  rw [show str "\n" = ['\n'] by decide] at h1
  rw [show str ". " = ['.', ' '] by decide] at h2
  rw [show str " " = [' '] by decide] at h3
  simp [docxSeps, chooseSep, h1, h2, h3, str]

theorem chooseSep_excel (t : Str) (h1 : occursIn (str "\n") t = false)
    (h2 : occursIn (str ", ") t = false) (h3 : occursIn (str " ") t = false) :
    chooseSep excelSeps t = (str " ", []) := by
  rw [show str "\n" = ['\n'] by decide] at h1
  rw [show str ", " = [',', ' '] by decide] at h2
  rw [show str " " = [' '] by decide] at h3
  simp [excelSeps, chooseSep, h1, h2, h3, str]

theorem docx_split_noSep (t : Str) (h1 : occursIn (str "\n") t = false)
    (h2 : occursIn (str ". ") t = false) (h3 : occursIn (str " ") t = false)
    (hlen : DOCX_CHUNK_SIZE ≤ t.length) : docx_split t = [t] := by
  have ht : t ≠ [] := by
    intro h
    rw [h] at hlen
    simp [DOCX_CHUNK_SIZE] at hlen
  unfold docx_split split_text
  rw [show docxSeps.length + 1 = 4 from rfl]
  simp only [recSplit, chooseSep_docx t h1 h2 h3]
  rw [splitWithSep_none _ _ (by rfl) h3 ht]
  simp only [goSplits, List.isEmpty_nil, if_neg (Nat.not_lt.mpr hlen), if_true]
  simp

theorem excel_split_noSep (t : Str) (h1 : occursIn (str "\n") t = false)
    (h2 : occursIn (str ", ") t = false) (h3 : occursIn (str " ") t = false)
    (hlen : EXCEL_CHUNK_SIZE ≤ t.length) : excel_split t = [t] := by
  have ht : t ≠ [] := by
    intro h
    rw [h] at hlen
    simp [EXCEL_CHUNK_SIZE] at hlen
  unfold excel_split split_text
  rw [show excelSeps.length + 1 = 4 from rfl]
  simp only [recSplit, chooseSep_excel t h1 h2 h3]
  rw [splitWithSep_none _ _ (by rfl) h3 ht]
  simp only [goSplits, List.isEmpty_nil, if_neg (Nat.not_lt.mpr hlen), if_true]
  simp

/-! Idempotence of `pyStrip`. -/

theorem head_dropWhile_false (p : Char → Bool) :
    ∀ (l : Str) (c : Char), (l.dropWhile p).head? = some c → p c = false := by
  intro l
  induction l with
  | nil => intro c hc; simp at hc
  | cons d ds ih =>
    intro c hc
    by_cases hd : p d
    · exact ih c (by simpa [List.dropWhile_cons, hd] using hc)
    · simp only [List.dropWhile_cons, if_neg hd, List.head?_cons, Option.some_inj] at hc
      rw [← hc]
      exact Bool.of_not_eq_true hd

theorem dropWhile_eq_self_of_head (p : Char → Bool) (l : Str)
    (h : ∀ c, l.head? = some c → p c = false) : l.dropWhile p = l := by
  cases l with
  | nil => rfl
  | cons d ds => simp [List.dropWhile_cons, h d rfl]

theorem dropWhile_suffix_ex (p : Char → Bool) :
    ∀ l : Str, ∃ w, w ++ l.dropWhile p = l := by
  intro l
  induction l with
  | nil => exact ⟨[], rfl⟩
  | cons d ds ih =>
    by_cases hd : p d
    · rcases ih with ⟨w, hw⟩
      exact ⟨d :: w, by simp [List.dropWhile_cons, hd, hw]⟩
    · exact ⟨[], by simp [List.dropWhile_cons, hd]⟩

theorem head_pyStrip_false (s : Str) :
    ∀ c, (pyStrip s).head? = some c → pyIsSpace c = false := by
  intro c hc
  set u := s.dropWhile pyIsSpace with hu
  have hfree : ∀ c, u.head? = some c → pyIsSpace c = false := head_dropWhile_false pyIsSpace s
  rcases dropWhile_suffix_ex pyIsSpace u.reverse with ⟨w, hw⟩
  have hsplit : u = (u.reverse.dropWhile pyIsSpace).reverse ++ w.reverse := by
    have := congrArg List.reverse hw
    simpa using this.symm
  unfold pyStrip at hc
  rw [← hu] at hc
  cases hrev : (u.reverse.dropWhile pyIsSpace).reverse with
  | nil => rw [hrev] at hc; simp at hc
  | cons a as =>
    rw [hrev] at hc
    simp only [List.head?_cons, Option.some_inj] at hc
    apply hfree
    rw [hsplit, hrev, ← hc]
    simp

theorem pyStrip_idem (s : Str) : pyStrip (pyStrip s) = pyStrip s := by
  have h1 : (pyStrip s).dropWhile pyIsSpace = pyStrip s :=
    dropWhile_eq_self_of_head pyIsSpace (pyStrip s) (head_pyStrip_false s)
  have h2 : (pyStrip s).reverse.dropWhile pyIsSpace = (pyStrip s).reverse := by
    apply dropWhile_eq_self_of_head
    intro c hc
    apply head_dropWhile_false pyIsSpace ((s.dropWhile pyIsSpace).reverse)
    unfold pyStrip at hc
    simpa using hc
  show ((((pyStrip s).dropWhile pyIsSpace).reverse).dropWhile pyIsSpace).reverse = pyStrip s
  rw [h1, h2]
  simp

/-! Idempotence analysis of `clean_text`. -/

theorem collapseGo_space (b : Bool) (d : Char) (ds : Str) (hd : pyIsSpace d = true) :
    collapseGo b (d :: ds) =
      (if b then collapseGo true ds else ' ' :: collapseGo true ds) := by
  cases b with
  | true => simp [collapseGo, hd]
  | false => simp [collapseGo, hd]

theorem collapseGo_nospace (b : Bool) (d : Char) (ds : Str) (hd : pyIsSpace d = false) :
    collapseGo b (d :: ds) = d :: collapseGo false ds := by
  cases b with
  | true => simp [collapseGo, hd]
  | false => simp [collapseGo, hd]

theorem mem_collapseGo : ∀ (s : Str) (b : Bool) (c : Char),
    c ∈ collapseGo b s → c = ' ' ∨ c ∈ s := by
  intro s
  induction s with
  | nil => intro b c hc; simp [collapseGo] at hc
  | cons d ds ih =>
    intro b c hc
    cases hd : pyIsSpace d with
    | true =>
      rw [collapseGo_space b d ds hd] at hc
      have hc2 : c ∈ collapseGo true ds ∨ c = ' ' := by
        cases b with
        | true => exact Or.inl (by simpa using hc)
        | false =>
          rw [if_neg (show ¬(false = true) by simp)] at hc
          rcases List.mem_cons.mp hc with hc | hc
          · exact Or.inr hc
          · exact Or.inl hc
      rcases hc2 with hc2 | hc2
      · rcases ih true c hc2 with h | h
        · exact Or.inl h
        · exact Or.inr (List.mem_cons_of_mem _ h)
      · exact Or.inl hc2
    | false =>
      rw [collapseGo_nospace b d ds hd] at hc
      rcases List.mem_cons.mp hc with hc | hc
      · exact Or.inr (hc ▸ List.mem_cons_self d ds)
      · rcases ih false c hc with h | h
        · exact Or.inl h
        · exact Or.inr (List.mem_cons_of_mem _ h)

theorem spaces_blank_collapseGo : ∀ (s : Str) (b : Bool),
    ∀ c ∈ collapseGo b s, pyIsSpace c = true → c = ' ' := by
  intro s
  induction s with
  | nil => intro b c hc; simp [collapseGo] at hc
  | cons d ds ih =>
    intro b c hc hsp
    cases hd : pyIsSpace d with
    | true =>
      rw [collapseGo_space b d ds hd] at hc
      cases b with
      | true => exact ih true c (by simpa using hc) hsp
      | false =>
        rw [if_neg (show ¬(false = true) by simp)] at hc
        rcases List.mem_cons.mp hc with hc | hc
        · exact hc
        · exact ih true c hc hsp
    | false =>
      rw [collapseGo_nospace b d ds hd] at hc
      rcases List.mem_cons.mp hc with hc | hc
      · exact absurd (hc ▸ hsp) (by simp [hd])
      · exact ih false c hc hsp

theorem head_collapseGo_true (s : Str) :
    ∀ c, (collapseGo true s).head? = some c → pyIsSpace c = false := by
  induction s with
  | nil => intro c hc; simp [collapseGo] at hc
  | cons d ds ih =>
    intro c hc
    cases hd : pyIsSpace d with
    | true =>
      rw [collapseGo_space true d ds hd] at hc
      exact ih c (by simpa using hc)
    | false =>
      rw [collapseGo_nospace true d ds hd] at hc
      simp only [List.head?_cons, Option.some_inj] at hc
      rw [← hc]
      exact hd

theorem chain_collapseGo : ∀ (s : Str) (b : Bool),
    List.Chain' (fun a b => ¬(pyIsSpace a = true ∧ pyIsSpace b = true)) (collapseGo b s) := by
  intro s
  induction s with
  | nil => intro b; simp [collapseGo]
  | cons d ds ih =>
    intro b
    cases hd : pyIsSpace d with
    | true =>
      rw [collapseGo_space b d ds hd]
      cases b with
      | true => simpa using ih true
      | false =>
        rw [if_neg (show ¬(false = true) by simp)]
        refine List.chain'_cons'.mpr ⟨?_, ih true⟩
        intro y hy h
        rw [head_collapseGo_true ds y hy] at h
        exact absurd h.2 (by simp)
    | false =>
      rw [collapseGo_nospace b d ds hd]
      refine List.chain'_cons'.mpr ⟨?_, ih false⟩
      intro y _ h
      exact absurd h.1 (by simp [hd])

theorem collapsed_collapseWS (s : Str) : Collapsed (collapseWS s) :=
  ⟨spaces_blank_collapseGo s false, chain_collapseGo s false⟩

theorem collapseGo_fix : ∀ z : Str, Collapsed z →
    collapseGo false z = z ∧
    ((∀ c, z.head? = some c → pyIsSpace c = false) → collapseGo true z = z) := by
  intro z
  induction z with
  | nil => intro _; exact ⟨rfl, fun _ => rfl⟩
  | cons d ds ih =>
    intro hz
    have hdz : ∀ c ∈ ds, pyIsSpace c = true → c = ' ' :=
      fun c hc => hz.1 c (List.mem_cons_of_mem _ hc)
    have hchain := List.chain'_cons'.mp hz.2
    have ihds := ih ⟨hdz, hchain.2⟩
    cases hd : pyIsSpace d with
    | true =>
      have hdsp : d = ' ' := hz.1 d (List.mem_cons_self d ds) hd
      have hhead : ∀ c, ds.head? = some c → pyIsSpace c = false := by
        intro c hc
        by_contra hcc
        exact hchain.1 c hc ⟨hd, Bool.of_not_eq_false hcc⟩
      constructor
      · rw [collapseGo_space false d ds hd, if_neg (show ¬(false = true) by simp), ihds.2 hhead, hdsp]
      · intro hfalse
        have := hfalse d rfl
        rw [hd] at this
        cases this
    | false =>
      have heq : collapseGo false ds = ds := ihds.1
      constructor
      · rw [collapseGo_nospace false d ds hd, heq]
      · intro _
        rw [collapseGo_nospace true d ds hd, heq]

theorem mem_pyStrip (z : Str) : ∀ c ∈ pyStrip z, c ∈ z := by
  intro c hc
  unfold pyStrip at hc
  rcases dropWhile_suffix_ex pyIsSpace z with ⟨w, hw⟩
  rcases dropWhile_suffix_ex pyIsSpace (z.dropWhile pyIsSpace).reverse with ⟨w2, hw2⟩
  rw [List.mem_reverse] at hc
  have h1 : c ∈ (z.dropWhile pyIsSpace).reverse := hw2 ▸ List.mem_append_right w2 hc
  rw [List.mem_reverse] at h1
  exact hw ▸ List.mem_append_right w h1

theorem collapsed_suffix {z v : Str} (hz : Collapsed z) (w : Str) (hw : w ++ v = z) :
    Collapsed v := by
  constructor
  · intro c hc
    exact hz.1 c (hw ▸ List.mem_append_right w hc)
  · have := hw ▸ hz.2
    exact (List.chain'_append.mp this).2.1

theorem collapsed_reverse {z : Str} (hz : Collapsed z) : Collapsed z.reverse := by
  constructor
  · intro c hc
    exact hz.1 c (List.mem_reverse.mp hc)
  · rw [List.chain'_reverse]
    exact hz.2.imp (fun a b h hab => h ⟨hab.2, hab.1⟩)

theorem collapsed_pyStrip {z : Str} (hz : Collapsed z) : Collapsed (pyStrip z) := by
  unfold pyStrip
  rcases dropWhile_suffix_ex pyIsSpace z with ⟨w, hw⟩
  have h1 : Collapsed (z.dropWhile pyIsSpace) := collapsed_suffix hz w hw
  have h2 : Collapsed (z.dropWhile pyIsSpace).reverse := collapsed_reverse h1
  rcases dropWhile_suffix_ex pyIsSpace (z.dropWhile pyIsSpace).reverse with ⟨w2, hw2⟩
  exact collapsed_reverse (collapsed_suffix h2 w2 hw2)

theorem clean_text_idem_of_noCtrl (s : Str) (h : ∀ c ∈ s, isCtrl c = false) :
    clean_text (clean_text s) = clean_text s := by
  have hnc : ∀ c ∈ collapseWS s, isCtrl c = false := by
    intro c hc
    rcases mem_collapseGo s false c hc with hc' | hc'
    · rw [hc']; rfl
    · exact h c hc'
  have hrm : removeCtrl (collapseWS s) = collapseWS s := by
    unfold removeCtrl
    rw [List.filter_eq_self]
    intro a ha
    rw [hnc a ha]
    rfl
  have hclean : clean_text s = pyStrip (collapseWS s) := by
    unfold clean_text
    rw [hrm]
  have hT : Collapsed (pyStrip (collapseWS s)) :=
    collapsed_pyStrip (collapsed_collapseWS s)
  have hTnc : ∀ c ∈ pyStrip (collapseWS s), isCtrl c = false :=
    fun c hc => hnc c (mem_pyStrip _ c hc)
  rw [hclean]
  unfold clean_text
  rw [show collapseWS (pyStrip (collapseWS s)) = pyStrip (collapseWS s) from
    (collapseGo_fix _ hT).1]
  rw [show removeCtrl (pyStrip (collapseWS s)) = pyStrip (collapseWS s) by
    unfold removeCtrl
    rw [List.filter_eq_self]
    intro a ha
    rw [hTnc a ha]
    rfl]
  exact pyStrip_idem (collapseWS s)

/-! Chunk identifier characterization. -/

theorem sanitizeSource_char (c : Char) :
    (fun c => if isWordChar c || c = '-' then c else '_')
      ((fun c => if c = '.' then '_' else c) c) =
    (fun c => if isWordChar c || c = '-' then c else '_') c := by
  by_cases hdot : c = '.'
  · subst hdot
    simp [isWordChar]
  · simp [hdot]

theorem generate_chunk_id_eq (text source : Str) (index : Nat) :
    generate_chunk_id text source index = spec_chunk_id_hyphen text source index := by
  unfold generate_chunk_id spec_chunk_id_hyphen sanitizeSource
  rw [List.map_map]
  have h : ∀ c ∈ source,
      ((fun c => if isWordChar c || c = '-' then c else '_') ∘
        (fun c => if c = '.' then '_' else c)) c =
      (fun c => if isWordChar c || c = '-' then c else '_') c :=
    fun c _ => sanitizeSource_char c
  rw [List.map_congr_left h]

/-! Legal-document loader invariants. -/

theorem docxFlush_mem (cur : List Str) (secNum : Nat) (fname : Str) :
    ∀ u ∈ docxFlush cur secNum fname,
      100 < u.text.length ∧ u.«section» = some secNum := by
  intro u hu
  unfold docxFlush at hu
  split at hu
  · next hlen =>
    simp only [List.mem_singleton] at hu
    subst hu
    exact ⟨hlen, rfl⟩
  · simp at hu

theorem docxGo_text_long (fname : Str) :
    ∀ (ps cur : List Str) (k : Nat), ∀ u ∈ docxGo fname ps cur k, 100 < u.text.length := by
  intro ps
  induction ps with
  | nil =>
    intro cur k u hu
    simp only [docxGo] at hu
    split at hu
    · simp at hu
    · exact (docxFlush_mem cur k fname u hu).1
  | cons p ps ih =>
    intro cur k u hu
    simp only [docxGo] at hu
    split at hu
    · exact ih cur k u hu
    · split at hu
      · rcases List.mem_append.mp hu with hu | hu
        · exact (docxFlush_mem cur k fname u hu).1
        · exact ih _ _ u hu
      · exact ih _ _ u hu

theorem secList_append (a b : List RawUnit) :
    secList (a ++ b) = secList a ++ secList b := by
  simp [secList]

theorem docxGo_sections (fname : Str) :
    ∀ (ps cur : List Str) (k : Nat),
      List.Chain' (· < ·) (secList (docxGo fname ps cur k)) ∧
      ∀ x ∈ secList (docxGo fname ps cur k), k ≤ x := by
  intro ps
  induction ps with
  | nil =>
    intro cur k
    simp only [docxGo]
    split
    · simp [secList]
    · unfold docxFlush secList
      split
      · simp
      · simp [secList]
  | cons p ps ih =>
    intro cur k
    simp only [docxGo]
    split
    · exact ih cur k
    · split
      · rw [secList_append]
        have hrest := ih [pyStrip p] (k + 1)
        constructor
        · rw [List.chain'_append]
          refine ⟨?_, hrest.1, ?_⟩
          · unfold docxFlush secList
            split
            · simp
            · simp
          · intro x hx y hy
            have hx' : x = k := by
              unfold docxFlush secList at hx
              split at hx
              · simp at hx
                omega
              · simp at hx
            have hy' := hrest.2 y (List.mem_of_mem_head? hy)
            omega
        · intro x hx
          rcases List.mem_append.mp hx with hx | hx
          · unfold docxFlush secList at hx
            split at hx
            · simp at hx
              omega
            · simp at hx
          · exact Nat.le_of_succ_le (hrest.2 x hx)
      · exact ih _ k

theorem docx_load_sections (ps : List Str) (fname : Str) :
    List.Chain' (· < ·) (secList (docx_load ps fname)) :=
  (docxGo_sections fname ps [] 0).1

/-! Orchestrator and configuration lemmas. -/

theorem loadLoop_error_insert (name suf : Str) (e : Str)
    (hsuf : lowerStr suf ∈ loaderExts) :
    ∀ (pre post : List (Str × Str × Except Str (List RawUnit))),
      loadLoop (pre ++ (name, suf, Except.error e) :: post) =
        loadLoop pre ++ (name, []) :: loadLoop post := by
  intro pre
  induction pre with
  | nil =>
    intro post
    simp [loadLoop, hsuf]
  | cons d pre ih =>
    intro post
    rcases d with ⟨n1, s1, r1⟩
    by_cases h1 : lowerStr s1 ∈ loaderExts
    · cases r1 with
      | ok cs => simp [loadLoop, h1, ih post]
      | error e1 => simp [loadLoop, h1, ih post]
    · simp [loadLoop, h1, ih post]

theorem load_all_ok (cfg : ConfigState)
    (docs : List (Str × Str × Except Str (List RawUnit)))
    (h : validate cfg = Except.ok ()) :
    load_all_documents cfg docs = Except.ok (loadLoop docs) := by
  unfold load_all_documents
  rw [h]

theorem load_all_error (cfg : ConfigState)
    (docs : List (Str × Str × Except Str (List RawUnit))) (m : Str)
    (h : validate cfg = Except.error m) :
    load_all_documents cfg docs = Except.error m := by
  unfold load_all_documents
  rw [h]

theorem isPrefixOf_append_self : ∀ (l t : Str), l.isPrefixOf (l ++ t) = true := by
  intro l
  induction l with
  | nil => intro t; simp [List.isPrefixOf]
  | cons c cs ih => intro t; simp [List.isPrefixOf, ih]

theorem occursIn_self_append (n t : Str) : occursIn n (n ++ t) = true := by
  cases n with
  | nil => cases t <;> simp [occursIn]
  | cons c cs => simp [occursIn, isPrefixOf_append_self (c :: cs) t]

theorem occursIn_append_right (n t : Str) (h : occursIn n t = true) :
    ∀ a : Str, occursIn n (a ++ t) = true := by
  intro a
  induction a with
  | nil => simpa using h
  | cons c cs ih => simp [occursIn, ih]

theorem occursIn_around (e a b : Str) : occursIn e (a ++ (e ++ b)) = true :=
  occursIn_append_right e (e ++ b) (occursIn_self_append e b) a

theorem occursIn_joinWith_mem (sep : Str) :
    ∀ (l : List Str) (e : Str), e ∈ l →
      occursIn e (joinWith sep (l.map (fun x => ' ' :: x))) = true := by
  intro l
  induction l with
  | nil => intro e he; simp at he
  | cons x xs ih =>
    intro e he
    cases xs with
    | nil =>
      simp only [List.mem_singleton] at he
      subst he
      have h0 := occursIn_around e [' '] []
      simpa [joinWith] using h0
    | cons y ys =>
      rcases List.mem_cons.mp he with he | he
      · subst he
        have hj : joinWith sep ((e :: y :: ys).map (fun x => ' ' :: x)) =
            [' '] ++ (e ++ (sep ++ joinWith sep ((y :: ys).map (fun x => ' ' :: x)))) := by
          simp [joinWith]
        rw [hj]
        exact occursIn_around e [' '] _
      · have hj : joinWith sep ((x :: y :: ys).map (fun x => ' ' :: x)) =
            ((' ' :: x) ++ sep) ++ joinWith sep ((y :: ys).map (fun x => ' ' :: x)) := by
          simp [joinWith]
        rw [hj]
        exact occursIn_append_right e _ (ih e he) _

theorem validate_ok_of_no_errors (cfg : ConfigState) (h : validateErrors cfg = []) :
    validate cfg = Except.ok () := by
  unfold validate
  rw [if_pos (by rw [h]; rfl)]

theorem validate_error_lists_all (cfg : ConfigState) (h : validateErrors cfg ≠ []) :
    validate cfg =
      Except.error (str "Configuration errors:\n" ++
        joinWith (str "\n") ((validateErrors cfg).map (fun e => ' ' :: e))) ∧
    ∀ e ∈ validateErrors cfg,
      occursIn e (str "Configuration errors:\n" ++
        joinWith (str "\n") ((validateErrors cfg).map (fun e => ' ' :: e))) = true := by
  constructor
  · unfold validate
    rw [if_neg (by simpa [List.isEmpty_iff] using h)]
  · intro e he
    exact occursIn_append_right e _
      (occursIn_joinWith_mem (str "\n") (validateErrors cfg) e he) _

theorem clean_text_strip (t : Str) : pyStrip (clean_text t) = clean_text t := by
  unfold clean_text
  exact pyStrip_idem _

theorem chunk_docx_single (t src nm : Str) (sec : Option Nat)
    (hsplit : docx_split (clean_text t) = [clean_text t])
    (hlen : 50 ≤ (clean_text t).length) :
    (chunk_docx [mkDocxUnit t src sec] nm).map (fun c => c.metadata.char_count) =
      [(clean_text t).length] := by
  have hno : ¬((pyStrip (clean_text t)).length < 50) := by
    rw [clean_text_strip]
    omega
  unfold chunk_docx chunkDocxGo mkDocxUnit
  simp only [hsplit]
  unfold emitDocx
  rw [if_neg hno]
  simp [chunkDocxGo, emitDocx]

theorem chunk_excel_single (t src nm : Str) (sh : Option Str) (rw : Option RowVal)
    (hsplit : EXCEL_CHUNK_SIZE < (clean_text t).length →
      excel_split (clean_text t) = [clean_text t])
    (hlen : 20 ≤ (clean_text t).length) :
    (chunk_excel [mkExcelUnit t src sh rw] nm).map (fun c => c.metadata.char_count) =
      [(clean_text t).length] := by
  have hno : ¬((pyStrip (clean_text t)).length < 20) := by
    rw [clean_text_strip]
    omega
  unfold chunk_excel chunkExcelGo mkExcelUnit
  by_cases hbig : EXCEL_CHUNK_SIZE < (clean_text t).length
  · simp only [if_pos hbig, hsplit hbig]
    unfold emitExcel
    rw [if_neg hno]
    simp [chunkExcelGo, emitExcel]
  · simp only [if_neg hbig]
    unfold emitExcel
    rw [if_neg hno]
    simp [chunkExcelGo, emitExcel]

theorem chunk_excel_floor (us : List RawUnit) (docName : Str) :
    ∀ c ∈ chunk_excel us docName, 20 ≤ c.metadata.char_count := by
  unfold chunk_excel
  generalize 0 = idx
  induction us generalizing idx with
  | nil => intro c hc; simp [chunkExcelGo] at hc
  | cons u us ih =>
    intro c hc
    simp only [chunkExcelGo, List.mem_append] at hc
    rcases hc with hc | hc
    · exact emitExcel_floor _ _ _ _ c hc
    · exact ih _ c hc

/-! ## Claims -/

set_option maxRecDepth 4000000

/-- C1 (counterexample): in the tabular chunker the `chunk_index` is the
enumeration index of the raw unit, so when the first unit is dropped for
being below the 20-character floor the single emitted chunk carries index
1, and the set of indices is {1}, not {0}: index contiguity fails for
excel documents. -/
theorem C1_counterexample :
    ¬(mapIdx (chunk_excel c1docs (str "inflation")) =
      List.range (chunk_excel c1docs (str "inflation")).length) := by decide

/-- C1 (amended): for pdf and docx documents the emitted `chunk_index`
values are exactly `0, 1, ..., n-1` in emission order (contiguous, no
gaps, no duplicates); for excel documents the emitted indices are the
positions of the originating raw units — non-decreasing in emission order
and bounded by the raw-unit count, but with gaps when a unit is dropped
and duplicates when a unit splits into several pieces. -/
theorem C1_amended : ∀ (us : List RawUnit) (nm : Str),
    mapIdx (chunk_pdf us nm) = List.range (chunk_pdf us nm).length ∧
    mapIdx (chunk_docx us nm) = List.range (chunk_docx us nm).length ∧
    List.Chain' (· ≤ ·) (mapIdx (chunk_excel us nm)) ∧
    (mapIdx (chunk_excel us nm)).all (fun i => decide (i < us.length)) = true := by
  intro us nm
  refine ⟨chunk_pdf_indices us nm, chunk_docx_indices us nm,
    chunkExcelGo_sorted nm us 0, ?_⟩
  rw [List.all_eq_true]
  intro i hi
  rw [decide_eq_true_eq]
  have h := (chunkExcelGo_indices nm us 0 i hi).2
  omega

/-- C2 (counterexample): the claimed sanitization replaces every non-word
character with an underscore, but the code's character class `[^\w\-]`
preserves hyphens, so for the source name `"a-b.pdf"` the generated
identifier differs from the claimed format. -/
theorem C2_counterexample :
    generate_chunk_id (str "hello") (str "a-b.pdf") 0 ≠
      spec_chunk_id (str "hello") (str "a-b.pdf") 0 := by decide

/-- C2 (amended): the chunk identifier is the pure, deterministic function
`{sanitized_source}_{index}_{first 8 hex chars of md5(text)}` of
(text, source, index), where sanitization maps every character that is
neither a word character nor a hyphen to an underscore (hyphens are
preserved). -/
theorem C2_amended : ∀ (text source : Str) (index : Nat),
    generate_chunk_id text source index = spec_chunk_id_hyphen text source index :=
  fun t s i => generate_chunk_id_eq t s i

/-- C3 (counterexample): a docx raw unit of 1501 identical letters
exceeds the 1500-character target, yet is emitted as a single chunk of
`char_count` 1501 — more than the target and not equal to any hard-cut
length, because the docx separator list has no hard-cut fallback. -/
theorem C3_counterexample :
    (chunk_docx [c3docxUnit] (str "eu_ai_act")).map
        (fun c => c.metadata.char_count) = [1501] ∧
    ¬(1501 ≤ DOCX_CHUNK_SIZE) :=
  ⟨by decide, by decide⟩

/-- C3 (amended): the pdf separator list ends in the hard-cut fallback and
every emitted pdf chunk satisfies `char_count ≤ 1800`; the docx and excel
separator lists do not end in a hard-cut fallback, so a raw unit whose
cleaned text contains none of the configured separators and exceeds the
target is emitted as a single chunk whose `char_count` equals the full
cleaned length. -/
theorem C3_amended :
    (∀ (us : List RawUnit) (nm : Str),
      (chunk_pdf us nm).all
        (fun c => decide (c.metadata.char_count ≤ PDF_CHUNK_SIZE)) = true) ∧
    (∀ (t src nm : Str) (sec : Option Nat),
      occursIn (str "\n") (clean_text t) = false →
      occursIn (str ". ") (clean_text t) = false →
      occursIn (str " ") (clean_text t) = false →
      DOCX_CHUNK_SIZE ≤ (clean_text t).length →
      (chunk_docx [mkDocxUnit t src sec] nm).map (fun c => c.metadata.char_count) =
        [(clean_text t).length]) ∧
    (∀ (t src nm : Str) (sh : Option Str) (r : Option RowVal),
      occursIn (str "\n") (clean_text t) = false →
      occursIn (str ", ") (clean_text t) = false →
      occursIn (str " ") (clean_text t) = false →
      EXCEL_CHUNK_SIZE < (clean_text t).length →
      (chunk_excel [mkExcelUnit t src sh r] nm).map (fun c => c.metadata.char_count) =
        [(clean_text t).length]) := by
  refine ⟨?_, ?_, ?_⟩
  · intro us nm
    rw [List.all_eq_true]
    intro c hc
    rw [decide_eq_true_eq]
    exact chunk_pdf_le us nm c hc
  · intro t src nm sec h1 h2 h3 hlen
    refine chunk_docx_single t src nm sec (docx_split_noSep _ h1 h2 h3 hlen) ?_
    unfold DOCX_CHUNK_SIZE at hlen
    omega
  · intro t src nm sh r h1 h2 h3 hlen
    refine chunk_excel_single t src nm sh r
      (fun _ => excel_split_noSep _ h1 h2 h3 (Nat.le_of_lt hlen)) ?_
    unfold EXCEL_CHUNK_SIZE at hlen
    omega

/-- C3 (witness): the amended statement instantiated at a 1501-letter
docx unit and a 501-letter excel unit. -/
theorem C3_witness :
    (occursIn (str "\n") (clean_text (List.replicate 1501 'a')) = false ∧
     occursIn (str ". ") (clean_text (List.replicate 1501 'a')) = false ∧
     occursIn (str " ") (clean_text (List.replicate 1501 'a')) = false ∧
     DOCX_CHUNK_SIZE ≤ (clean_text (List.replicate 1501 'a')).length ∧
     (chunk_docx [mkDocxUnit (List.replicate 1501 'a') (str "EU AI Act Doc.docx") (some 0)]
         (str "eu_ai_act")).map (fun c => c.metadata.char_count) =
       [(clean_text (List.replicate 1501 'a')).length]) ∧
    (occursIn (str "\n") (clean_text (List.replicate 501 'x')) = false ∧
     occursIn (str ", ") (clean_text (List.replicate 501 'x')) = false ∧
     occursIn (str " ") (clean_text (List.replicate 501 'x')) = false ∧
     EXCEL_CHUNK_SIZE < (clean_text (List.replicate 501 'x')).length ∧
     (chunk_excel [mkExcelUnit (List.replicate 501 'x') (str "Inflation Calculator.xlsx")
         (some (str "CPI")) (some (RowVal.num 6))] (str "inflation")).map
           (fun c => c.metadata.char_count) =
       [(clean_text (List.replicate 501 'x')).length]) := by
  constructor
  · exact ⟨by decide, by decide, by decide, by decide,
      C3_amended.2.1 _ _ _ _ (by decide) (by decide) (by decide) (by decide)⟩
  · exact ⟨by decide, by decide, by decide, by decide,
      C3_amended.2.2 _ _ _ _ _ (by decide) (by decide) (by decide) (by decide)⟩

/-- C4: in the legal-document loader every emitted section's joined text
is longer than 100 characters, and on the scenario paragraph list the
output is exactly one unit: the "SECTION TWO:" header joined with its
long body, carrying section number 1 (the "TITLE:" section's joined text
has only 21 characters and is dropped). -/
theorem C4_theorem :
    (∀ (ps : List Str) (f : Str),
      (docx_load ps f).all (fun u => decide (100 < u.text.length)) = true) ∧
    docx_load c4paras (str "EU AI Act Doc.docx") = [c4expected] := by
  constructor
  · intro ps f
    rw [List.all_eq_true]
    intro u hu
    rw [decide_eq_true_eq]
    exact docxGo_text_long f ps [] 0 u hu
  · decide

/-- C5: on the scenario sheet (header cell "Year" at row 3, column 1,
year rows 1950-1959 with twelve months and an Average column, plus one
unparseable and one out-of-range year row), the loader emits, in order,
one summary unit, ten year units for 1950..1959 at sheet rows 6..15, and
one decade unit with `decade = 1950` whose text lists all ten years with
their averages sorted ascending. -/
theorem C5_theorem :
    c5units.map (fun u => u.row) =
      [some .summary, some (.num 6), some (.num 7), some (.num 8), some (.num 9),
       some (.num 10), some (.num 11), some (.num 12), some (.num 13), some (.num 14),
       some (.num 15), some (.decadeTag 1950)] ∧
    c5units.map (fun u => u.year) =
      [none, some 1950, some 1951, some 1952, some 1953, some 1954, some 1955,
       some 1956, some 1957, some 1958, some 1959, none] ∧
    c5units.map (fun u => u.decade) =
      [none, none, none, none, none, none, none, none, none, none, none, some 1950] ∧
    (c5units.map (fun u => u.text)).getLastD [] =
      str "Inflation data summary for the 1950s:\nYears covered: 1950 to 1959\nYear-by-year average CPI:\n  1950: 20\n  1951: 21\n  1952: 22\n  1953: 23\n  1954: 24\n  1955: 25\n  1956: 26\n  1957: 27\n  1958: 28\n  1959: 29\n" :=
  ⟨by decide, by decide, by decide, by decide⟩

/-- C6: no chunk is emitted below its document type's minimum-length
floor: every pdf and docx chunk has `char_count ≥ 50` and every excel
chunk has `char_count ≥ 20`. -/
theorem C6_theorem : ∀ (us : List RawUnit) (nm : Str),
    (chunk_pdf us nm).all (fun c => decide (50 ≤ c.metadata.char_count)) = true ∧
    (chunk_docx us nm).all (fun c => decide (50 ≤ c.metadata.char_count)) = true ∧
    (chunk_excel us nm).all (fun c => decide (20 ≤ c.metadata.char_count)) = true := by
  intro us nm
  refine ⟨?_, ?_, ?_⟩
  · rw [List.all_eq_true]
    intro c hc
    rw [decide_eq_true_eq]
    exact chunk_pdf_floor us nm c hc
  · rw [List.all_eq_true]
    intro c hc
    rw [decide_eq_true_eq]
    exact chunk_docx_floor us nm c hc
  · rw [List.all_eq_true]
    intro c hc
    rw [decide_eq_true_eq]
    exact chunk_excel_floor us nm c hc

/-- C7: a document whose loader raises is recorded with an empty chunk
list while every other document's entry is unaffected, and when
validation passes the orchestrator returns normally with the processed
list — a single loader failure never aborts the pipeline. -/
theorem C7_theorem :
    (∀ (name suf e : Str) (pre post : List (Str × Str × Except Str (List RawUnit))),
      lowerStr suf ∈ loaderExts →
      loadLoop (pre ++ (name, suf, Except.error e) :: post) =
        loadLoop pre ++ (name, []) :: loadLoop post) ∧
    (∀ (cfg : ConfigState) (docs : List (Str × Str × Except Str (List RawUnit))),
      validate cfg = Except.ok () →
      load_all_documents cfg docs = Except.ok (loadLoop docs)) :=
  ⟨fun name suf e pre post h => loadLoop_error_insert name suf e h pre post,
   fun cfg docs h => load_all_ok cfg docs h⟩

/-- C7 (witness): the failing-loader equation at a concrete registry of
three documents, and a successful full run under a valid configuration. -/
theorem C7_witness :
    lowerStr (str ".pdf") ∈ loaderExts ∧
    loadLoop ([(str "eu_ai_act", str ".docx", Except.ok [c4expected])] ++
        (str "attention", str ".pdf", Except.error (str "EOF marker not found")) ::
        [(str "inflation", str ".xlsx", Except.ok c1docs)]) =
      loadLoop [(str "eu_ai_act", str ".docx", Except.ok [c4expected])] ++
        (str "attention", ([] : List RawUnit)) ::
        loadLoop [(str "inflation", str ".xlsx", Except.ok c1docs)] ∧
    validate c8goodCfg = Except.ok () ∧
    load_all_documents c8goodCfg c7docs = Except.ok (loadLoop c7docs) := by
  refine ⟨by decide, C7_theorem.1 _ _ _ _ _ (by decide), rfl, ?_⟩
  exact C7_theorem.2 c8goodCfg c7docs rfl

/-- C8: validation is eager and aggregated — with no problems it returns
normally; with problems it raises one error whose message contains every
problem found; and a validation error makes the orchestrator fail before
processing any document. -/
theorem C8_theorem :
    (∀ cfg : ConfigState, validateErrors cfg = [] → validate cfg = Except.ok ()) ∧
    (∀ cfg : ConfigState, validateErrors cfg ≠ [] →
      ∃ m, validate cfg = Except.error m ∧
        ∀ e ∈ validateErrors cfg, occursIn e m = true) ∧
    (∀ (cfg : ConfigState) (docs : List (Str × Str × Except Str (List RawUnit)))
        (m : Str),
      validate cfg = Except.error m → load_all_documents cfg docs = Except.error m) := by
  refine ⟨?_, ?_, fun cfg docs m h => load_all_error cfg docs m h⟩
  · exact fun cfg h => validate_ok_of_no_errors cfg h
  · intro cfg h
    exact ⟨_, (validate_error_lists_all cfg h).1, (validate_error_lists_all cfg h).2⟩

/-- C8 (witness): a configuration with an unset token and two missing
documents yields one aggregated error containing both problem messages;
a fully valid configuration validates and loads. -/
theorem C8_witness :
    validateErrors c8badCfg ≠ [] ∧
    (∃ m, validate c8badCfg = Except.error m ∧
      ∀ e ∈ validateErrors c8badCfg, occursIn e m = true) ∧
    validateErrors c8goodCfg = [] ∧
    validate c8goodCfg = Except.ok () ∧
    load_all_documents c8badCfg c7docs =
      Except.error (str "Configuration errors:\n" ++
        joinWith (str "\n") ((validateErrors c8badCfg).map (fun e => ' ' :: e))) := by
  refine ⟨by decide, C8_theorem.2.1 c8badCfg (by decide), by decide,
    C8_theorem.1 c8goodCfg (by decide), ?_⟩
  exact C8_theorem.2.2 c8badCfg c7docs _
    (validate_error_lists_all c8badCfg (by decide)).1

/-- C9 (counterexample): the text normalizer is not idempotent — on
`"a \x00 b"` the whitespace pass leaves the two single spaces around the
NUL, the control-character pass then removes the NUL and joins them, so a
second cleaning collapses the resulting double space. -/
theorem C9_counterexample :
    clean_text (clean_text c9text) ≠ clean_text c9text := by decide

/-- C9 (amended): the normalizer is idempotent on every input containing
no character of the control-removal class; for inputs mixing whitespace
with control characters a second pass can differ. -/
theorem C9_amended : ∀ s : Str, s.all (fun c => !isCtrl c) = true →
    clean_text (clean_text s) = clean_text s := by
  intro s h
  apply clean_text_idem_of_noCtrl
  intro c hc
  have h2 := List.all_eq_true.mp h c hc
  simpa using h2

/-- C9 (witness): the amended idempotence at a control-free input mixing
spaces and tabs. -/
theorem C9_witness :
    (str "a \t b").all (fun c => !isCtrl c) = true ∧
    clean_text (clean_text (str "a \t b")) = clean_text (str "a \t b") :=
  ⟨by decide, C9_amended (str "a \t b") (by decide)⟩

/-- C10: section locators of the legal-document loader are strictly
increasing in emission order for every paragraph list; they are not
contiguous — on `c10gap` the dropped sections 0 and 2 still consume their
numbers and the emitted locators are `[1, 3]`; and all paragraphs before
the first header are flushed together as section 0. -/
theorem C10_theorem :
    (∀ (ps : List Str) (f : Str), List.Chain' (· < ·) (secList (docx_load ps f))) ∧
    secList (docx_load c10gap (str "f.docx")) = [1, 3] ∧
    docx_load c10pre (str "f.docx") = [c10preExpected] :=
  ⟨fun ps f => docx_load_sections ps f, by decide, by decide⟩

end MDRag
